import Mathlib

/-!
# Verification of the RCV core logic (`src/index.js`)

A shallow embedding of the ranked-choice-voting core module: the ballot
validator (`validateVote`), the batch formatter (`formatBallots`), the
approval calculator (`calculateApproval`) and the round-by-round tally
engine (`tally`), together with proofs of the specified properties.

Modelling conventions:
* JS `Map`/`Set` preserve insertion order, so they are embedded as
  association lists (`List (String × _)`) / duplicate-free `List String`,
  with all operations written to preserve order exactly as the source does.
* JS numbers that can be `NaN`/`Infinity` (the approval percentages and the
  tie-break minimum) are embedded as `JNum`; a finite value is kept as an
  exact fraction (numerator over positive denominator) compared by
  cross-multiplication, which is faithful for every comparison the source
  performs (all compared values arise as `count / total * 100` for a fixed
  `total`, an order-embedding of the counts).
* Dynamically-typed raw ballot records are embedded as `RawVal`.
-/

namespace RCV

/-- A JS number as used by the approval/tie-break logic: `NaN`, `Infinity`,
or a finite nonnegative value kept as the exact fraction
`num / den` (`den` positive). -/
inductive JNum where
  | nan : JNum
  | inf : JNum
  | fin : Nat → {d : Nat // 0 < d} → JNum
deriving DecidableEq, Repr

/-- JS `<` on the numbers that occur here: `NaN` compares false with
everything, finite values compare numerically (by cross-multiplication of
the exact fractions), `x < Infinity` holds for finite `x`. -/
def JNum.ltb : JNum → JNum → Bool
  | .fin a da, .fin b db => a * db.val < b * da.val
  | .fin _ _, .inf => true
  | _, _ => false

/-- JS `===` on numbers: `NaN === x` is false for every `x`; finite values
compare by numeric value (cross-multiplication). -/
def JNum.eqb : JNum → JNum → Bool
  | .fin a da, .fin b db => a * db.val == b * da.val
  | .inf, .inf => true
  | _, _ => false

/-- JS division `a / b` of two nonnegative integers: `0 / 0 = NaN`,
`a / 0 = Infinity` for `a > 0`, otherwise the exact fraction. -/
def jsDiv (a b : Nat) : JNum :=
  if h : b = 0 then (if a = 0 then .nan else .inf)
  else .fin a ⟨b, Nat.pos_of_ne_zero h⟩

/-- JS multiplication by the constant `100` (`NaN`/`Infinity` absorb). -/
def jsMul100 : JNum → JNum
  | .nan => .nan
  | .inf => .inf
  | .fin a d => .fin (a * 100) d

/-- A dynamically-typed JS value, restricted to the shapes the validator and
formatter inspect.  A record is modelled by its `rankings` and `approvals`
fields (`vundefined` when absent); other fields are never read. -/
inductive RawVal where
  | vnull : RawVal
  | vundefined : RawVal
  | vbool : Bool → RawVal
  | vnum : Int → RawVal
  | vstr : String → RawVal
  | varr : List RawVal → RawVal
  | vobj : RawVal → RawVal → RawVal
deriving Repr

/-- JS truthiness of a `RawVal`. -/
def RawVal.truthy : RawVal → Bool
  | .vnull => false
  | .vundefined => false
  | .vbool b => b
  | .vnum n => n != 0
  | .vstr s => s != ""
  | .varr _ => true
  | .vobj _ _ => true

/-- JS `typeof x === 'object'` (arrays and `null` are objects). -/
def RawVal.isObjectType : RawVal → Bool
  | .vnull => true
  | .varr _ => true
  | .vobj _ _ => true
  | _ => false

/-- The `rankings` field of a record (`undefined` on non-records). -/
def RawVal.rankingsField : RawVal → RawVal
  | .vobj r _ => r
  | _ => .vundefined

/-- The `approvals` field of a record (`undefined` on non-records). -/
def RawVal.approvalsField : RawVal → RawVal
  | .vobj _ a => a
  | _ => .vundefined

/-- A clean ballot as produced by `formatBallots`: a ranking sequence plus
an approval set. -/
structure Ballot where
  rankings : List String
  approvals : List String
deriving DecidableEq, Repr

/-- The tally configuration. -/
structure Config where
  tieBreaking : String
  maxRounds : Nat
deriving Repr

/-- The verdict returned by `validateVote`. -/
structure Verdict where
  valid : Bool
  error : Option String
deriving DecidableEq, Repr

/-- `getActiveChoice` (src/index.js:18): the first entry of `ballot` that is
in the active set, or `null`. -/
def getActiveChoice (ballot : List String) (activeOptions : List String) :
    Option String :=
  ballot.find? (fun choice => activeOptions.contains choice)

/-- `getTransferChoice` (src/index.js:33) is `getActiveChoice` by definition. -/
def getTransferChoice (ballot : List String) (activeOptions : List String) :
    Option String :=
  getActiveChoice ballot activeOptions

/-- Look a key up in an insertion-ordered map (JS `Map.get`, `some` ↔ present). -/
def alookup (m : List (String × α)) (k : String) : Option α :=
  (m.find? (fun p => p.1 == k)).map Prod.snd

/-- Increment the value stored at `k`, leaving key order unchanged
(JS `m.set(k, m.get(k) + 1)` for a present key; every call site below only
ever increments present keys, so the absent-key case never arises). -/
def incr (m : List (String × Nat)) (k : String) : List (String × Nat) :=
  m.map (fun p => if p.1 == k then (p.1, p.2 + 1) else p)

/-- The rankings loop of `validateVote` (src/index.js:66-79): the first
entry in ranking order that is a non-string or an unknown option determines
the error. -/
def findRankingError (entries : List RawVal) (options : List String) :
    Option String :=
  match entries with
  | [] => none
  | .vstr s :: rest =>
      if options.contains s then findRankingError rest options
      else some ("Invalid choice: \"" ++ s ++ "\" is not one of the options.")
  | _ :: _ => some "Invalid choice: rankings contain a non-string value."

/-- The approvals loop of `validateVote` (src/index.js:97-110). -/
def findApprovalError (entries : List RawVal) (options : List String) :
    Option String :=
  match entries with
  | [] => none
  | .vstr s :: rest =>
      if options.contains s then findApprovalError rest options
      else some ("Invalid approved choice: \"" ++ s ++
        "\" is not one of the options.")
  | _ :: _ => some "Invalid choice: approvals contain a non-string value."

/-- The string payloads of a list of values; reached only once every entry
is known to be a string, so the `""` default is never produced. -/
def stringsOf (entries : List RawVal) : List String :=
  entries.map (fun e => match e with | .vstr s => s | _ => "")

/-- Scan for `new Set(l)`: keep the first occurrence of each element,
skipping those already seen. -/
def jsSetAux (seen : List String) : List String → List String
  | [] => []
  | x :: xs =>
    if seen.contains x then jsSetAux seen xs
    else x :: jsSetAux (x :: seen) xs

/-- The element list of `new Set(l)`: first occurrences, in insertion
order. -/
def jsSet (l : List String) : List String := jsSetAux [] l

/-- JS `new Set(l).size !== l.length` on a list of strings. -/
def hasDup (l : List String) : Bool :=
  (jsSet l).length != l.length

/-- `validateVote` (src/index.js:49): validity verdict for one raw ballot.
The options argument is a genuine string list here, so the source's
`!options || !Array.isArray(options)` guard (which can only fire on
non-array options) is statically discharged by the type. -/
def validateVote (ballot : RawVal) (options : List String) : Verdict :=
  if !ballot.truthy || !ballot.isObjectType then
    { valid := false, error := some "Ballot is not a valid object." }
  else
    match ballot.rankingsField with
    | .varr rankings =>
      (match findRankingError rankings options with
       | some e => { valid := false, error := some e }
       | none =>
         if hasDup (stringsOf rankings) then
           { valid := false,
             error := some "Duplicate found: rankings contain repeated options." }
         else
           let approvals := ballot.approvalsField
           if approvals.truthy then
             (match approvals with
             | .varr apprs =>
               (match findApprovalError apprs options with
                | some e => { valid := false, error := some e }
                | none =>
                  if hasDup (stringsOf apprs) then
                    { valid := false,
                      error := some
                        "Duplicate found: approvals contain repeated options." }
                  else { valid := true, error := none })
             | _ =>
               { valid := false, error := some "Approvals must be an array." })
           else { valid := true, error := none })
    | _ =>
      { valid := false, error := some "Ballot rankings are null or not an array." }

/-- The element list of an array value (`[]` on non-arrays; on the
validated paths below the argument is always an array). -/
def RawVal.elems : RawVal → List RawVal
  | .varr xs => xs
  | _ => []

/-- `vote.approvals || []` on a validated record: a truthy `approvals`
field has been checked to be an array of strings, a falsy one defaults
to the empty list. -/
def approvalsOrEmpty (vote : RawVal) : List String :=
  match vote.approvalsField with
  | .varr xs => stringsOf xs
  | _ => []

/-- One iteration of the `formatBallots` loop (src/index.js:136-148): `none`
means the record is skipped (malformed or invalid). -/
def processVote (options : List String) (vote : RawVal) : Option Ballot :=
  if !vote.truthy || !vote.isObjectType || !vote.rankingsField.truthy then
    none
  else if (validateVote vote options).valid then
    some { rankings := stringsOf vote.rankingsField.elems
           approvals := approvalsOrEmpty vote }
  else
    none

/-- The `formatBallots` loop body: push clean ballots in input order. -/
def formatLoop (options : List String) (votes : List RawVal)
    (cleanBallots : List Ballot) : List Ballot :=
  match votes with
  | [] => cleanBallots
  | vote :: rest =>
    match processVote options vote with
    | some b => formatLoop options rest (cleanBallots ++ [b])
    | none => formatLoop options rest cleanBallots

/-- `formatBallots` (src/index.js:130): sanitize raw votes into clean
ballots; `null`/non-array input yields `[]`. -/
def formatBallots (rawVotes : RawVal) (options : List String) : List Ballot :=
  match rawVotes with
  | .varr votes => formatLoop options votes []
  | _ => []

/-- `calculateApproval` (src/index.js:159): per-option approval counts and
percentages.  JS `Map` keys deduplicate, keeping first-insertion order, so
the key list is `jsSet options`. -/
def calculateApproval (ballots : List Ballot) (options : List String) :
    List (String × Nat) × List (String × JNum) :=
  let totalVotes := ballots.length
  let approvalCounts :=
    ballots.foldl
      (fun m ballot =>
        ballot.approvals.foldl
          (fun m approvedOption =>
            if (alookup m approvedOption).isSome then incr m approvedOption
            else m)
          m)
      (( jsSet options).map (fun option => (option, 0)))
  let approvalPercentages :=
    (jsSet options).map (fun option =>
      (option,
        jsMul100 (jsDiv ((alookup approvalCounts option).getD 0) totalVotes)))
  (approvalCounts, approvalPercentages)

/-- Replace the value stored at `k`, leaving key order unchanged
(JS property/`Map` assignment to a present key). -/
def setKey (m : List (String × α)) (k : String) (v : α) : List (String × α) :=
  m.map (fun p => if p.1 == k then (p.1, v) else p)

/-- JS truthiness of a nullable string (`if (choice)` in src/index.js:230):
`null` and the empty string are falsy, every other string truthy. -/
def truthyChoice : Option String → Bool
  | some c => c != ""
  | none => false

/-- One iteration of the tally loop (src/index.js:229-233): `if (choice)`
increment its count — a `null` or empty-string choice is falsy and skipped. -/
def tallyStep (m : List (String × Nat)) : Option String → List (String × Nat)
  | some c => if c = "" then m else incr m c
  | none => m

/-- The per-round tally (src/index.js:225-233): every active option starts
at `0` in active-set order, then each truthy current ballot choice
increments its count.  (Every truthy counted choice is an active option, so
the increment always hits a present key, as in the source.) -/
def roundTallyOf (active : List String) (choices : List (Option String)) :
    List (String × Nat) :=
  choices.foldl tallyStep (active.map (fun option => (option, 0)))

/-- One iteration of the minimum-count scan (src/index.js:255):
`if (count < minVotes) minVotes = count`, with `none` for the `Infinity`
start value. -/
def minStep (m : Option Nat) (p : String × Nat) : Option Nat :=
  match m with
  | none => some p.2
  | some v => if p.2 < v then some p.2 else m

/-- The minimum-count scan (src/index.js:253-258): `none` models the
`Infinity` start value surviving an empty tally. -/
def minVotes (tally : List (String × Nat)) : Option Nat :=
  tally.foldl minStep none

/-- The tied-for-elimination group (src/index.js:260-265): all tally entries
whose count equals the minimum, in tally order. -/
def toEliminateOf (tally : List (String × Nat)) : List String :=
  match minVotes tally with
  | none => []
  | some m => (tally.filter (fun p => p.2 == m)).map Prod.fst

/-- `initialApprovalPercentages.get(option)`: JS yields `undefined` on a
missing key, which behaves like `NaN` in the `<`/`===` uses below; on all
reachable states the key is present. -/
def getPerc (percs : List (String × JNum)) (o : String) : JNum :=
  (alookup percs o).getD .nan

/-- One iteration of the approval-minimum scan (src/index.js:270-273). -/
def apprMinStep (percs : List (String × JNum)) (m : JNum) (o : String) : JNum :=
  if (getPerc percs o).ltb m then getPerc percs o else m

/-- The approval tie-break minimum scan (src/index.js:268-274). -/
def minApprovalPercentage (percs : List (String × JNum))
    (toEliminate : List String) : JNum :=
  toEliminate.foldl (apprMinStep percs) .inf

/-- The approval tie-break narrowing (src/index.js:267-286): keep the tied
candidates whose percentage equals the minimum, but fall back to the whole
group unless that is non-empty and strictly smaller. -/
def narrowByApproval (percs : List (String × JNum))
    (toEliminate : List String) : List String :=
  let m := minApprovalPercentage percs toEliminate
  let newToEliminate := toEliminate.filter (fun o => (getPerc percs o).eqb m)
  if 0 < newToEliminate.length && newToEliminate.length < toEliminate.length
  then newToEliminate else toEliminate

/-- The full elimination set for a round: minimum-count group, narrowed by
approval only under `tieBreaking === 'approval'` with more than one tied
candidate (src/index.js:260-286). -/
def eliminationSet (cfg : Config) (percs : List (String × JNum))
    (tally : List (String × Nat)) : List String :=
  let toEliminate := toEliminateOf tally
  if 1 < toEliminate.length && cfg.tieBreaking == "approval" then
    narrowByApproval percs toEliminate
  else toEliminate

/-- Record one ballot transfer `src → tgt` in the nested transfer map
(src/index.js:317-326): create the inner record and zero entry on demand,
then increment. -/
def addTransfer (t : List (String × List (String × Nat)))
    (src tgt : String) : List (String × List (String × Nat)) :=
  match alookup t src with
  | none => t ++ [(src, [(tgt, 1)])]
  | some inner =>
    match alookup inner tgt with
    | none => setKey t src (inner ++ [(tgt, 1)])
    | some n => setKey t src (setKey inner tgt (n + 1))

/-- One iteration of the transfer loop (src/index.js:310-332) over a
`(ballot, currentChoice)` pair, threading the transfer map and the new
choice list.  `if (currentChoice && eliminatedSet.has(currentChoice))`
(src/index.js:314) requires a truthy current choice, so an eliminated
empty-string choice is kept, not transferred; `nextChoice || "exhausted"`
(src/index.js:321) records `"exhausted"` for a `null` or empty-string next
choice while the actual `nextChoice` is pushed onto the new choice list. -/
def transferStep (eliminatedSet newActive : List String)
    (acc : List (String × List (String × Nat)) × List (Option String))
    (p : Ballot × Option String) :
    List (String × List (String × Nat)) × List (Option String) :=
  match p.2 with
  | some currentChoice =>
    if currentChoice ≠ "" ∧ eliminatedSet.contains currentChoice then
      let nextChoice := getTransferChoice p.1.rankings newActive
      let target := match nextChoice with
        | some n => if n = "" then "exhausted" else n
        | none => "exhausted"
      (addTransfer acc.1 currentChoice target, acc.2 ++ [nextChoice])
    else (acc.1, acc.2 ++ [p.2])
  | none => (acc.1, acc.2 ++ [p.2])

/-- The whole transfer loop (src/index.js:309-334): aggregate transfers and
build the next round's choice list, in ballot order. -/
def runTransfers (eliminatedSet newActive : List String)
    (ballots : List Ballot) (choices : List (Option String)) :
    List (String × List (String × Nat)) × List (Option String) :=
  (ballots.zip choices).foldl (transferStep eliminatedSet newActive) ([], [])

/-- One round's log record (src/index.js:208-216). -/
structure RoundLog where
  round : Nat
  tally : List (String × Nat)
  status : String
  eliminated : List String
  transfers : List (String × List (String × Nat))
  approvalRatings : List (String × Nat)
  approvalPercentages : List (String × JNum)
deriving DecidableEq, Repr

/-- The result record returned by `tally` (src/index.js:243-249, 292-298,
338-345). -/
structure TallyResult where
  winner : Option String
  totalVotes : Nat
  threshold : Nat
  options : List String
  rounds : List RoundLog
  error : Option String
deriving DecidableEq, Repr

/-- The continuation decided by one round: an immediate winner, an
unbreakable tie, or an elimination carrying the shrunk active set and the
recomputed per-ballot choices. -/
inductive StepOut where
  | winner : String → StepOut
  | tie : StepOut
  | elim : List String → List (Option String) → StepOut
deriving DecidableEq, Repr

/-- One iteration of the round loop (src/index.js:207-335): build the round
log and decide how the loop continues.  `active` is duplicate-free
throughout (it starts as `new Set(options)` and only shrinks), so its
length is the source's `activeOptions.size`. -/
def runRound (ballots : List Ballot) (cfg : Config) (threshold : Nat)
    (apprCounts : List (String × Nat)) (apprPercs : List (String × JNum))
    (round : Nat) (active : List String) (choices : List (Option String)) :
    RoundLog × StepOut :=
  let roundTally := roundTallyOf active choices
  match roundTally.find? (fun p => threshold ≤ p.2) with
  | some winnerEntry =>
    ({ round := round, tally := roundTally, status := "Winner found",
       eliminated := [], transfers := [], approvalRatings := apprCounts,
       approvalPercentages := apprPercs },
     .winner winnerEntry.1)
  | none =>
    let toEliminate := eliminationSet cfg apprPercs roundTally
    if toEliminate.length == active.length then
      ({ round := round, tally := roundTally, status := "Unbreakable tie",
         eliminated := toEliminate, transfers := [],
         approvalRatings := apprCounts, approvalPercentages := apprPercs },
       .tie)
    else
      let newActive := active.filter (fun o => !toEliminate.contains o)
      let tc := runTransfers toEliminate newActive ballots choices
      ({ round := round, tally := roundTally, status := "Elimination",
         eliminated := toEliminate, transfers := tc.1,
         approvalRatings := apprCounts, approvalPercentages := apprPercs },
       .elim newActive tc.2)

/-- The round loop of `tally` (src/index.js:206-336), structured on the
remaining-round fuel (`maxRounds - round + 1`); returns the winner, the
round logs produced from this round on, and the terminal error. -/
def tallyLoop (ballots : List Ballot) (cfg : Config) (threshold : Nat)
    (apprCounts : List (String × Nat)) (apprPercs : List (String × JNum))
    (round : Nat) (fuel : Nat) (active : List String)
    (choices : List (Option String)) :
    Option String × List RoundLog × Option String :=
  match fuel with
  | 0 =>
    (none, [],
      some ("Tally exceeded max rounds (" ++ toString cfg.maxRounds ++ ")."))
  | fuel' + 1 =>
    match runRound ballots cfg threshold apprCounts apprPercs round active
      choices with
    | (log, .winner w) => (some w, [log], none)
    | (log, .tie) => (none, [log], none)
    | (log, .elim newActive newChoices) =>
      let rest := tallyLoop ballots cfg threshold apprCounts apprPercs
        (round + 1) fuel' newActive newChoices
      (rest.1, log :: rest.2.1, rest.2.2)

/-- `tally` (src/index.js:194): the full round-by-round RCV simulation. -/
def tally (ballots : List Ballot) (options : List String) (cfg : Config) :
    TallyResult :=
  let totalVotes := ballots.length
  let threshold := totalVotes / 2 + 1
  let appr := calculateApproval ballots options
  let activeOptions := jsSet options
  let currentBallotChoices :=
    ballots.map (fun ballot => getActiveChoice ballot.rankings activeOptions)
  let r := tallyLoop ballots cfg threshold appr.1 appr.2 1 cfg.maxRounds
    activeOptions currentBallotChoices
  { winner := r.1, totalVotes := totalVotes, threshold := threshold,
    options := options, rounds := r.2.1, error := r.2.2 }

/-! ### Lemmas: `jsSet` -/

theorem mem_jsSetAux {a : String} :
    ∀ (l seen : List String), a ∈ jsSetAux seen l ↔ (a ∈ l ∧ a ∉ seen) := by
  intro l
  induction l with
  | nil => intro seen; simp [jsSetAux]
  | cons x xs ih =>
    intro seen
    by_cases hx : x ∈ seen
    · rw [jsSetAux, if_pos (by simpa [List.elem_iff] using hx), ih seen]
      constructor
      · intro ⟨h1, h2⟩
        exact ⟨List.mem_cons_of_mem _ h1, h2⟩
      · intro ⟨h1, h2⟩
        rcases List.mem_cons.mp h1 with h | h
        · exact absurd (h ▸ hx) h2
        · exact ⟨h, h2⟩
    · rw [jsSetAux, if_neg (by simpa [List.elem_iff] using hx)]
      by_cases hax : a = x
      · subst hax
        simp [hx]
      · rw [List.mem_cons, ih (x :: seen)]
        constructor
        · intro h
          rcases h with h | ⟨h1, h2⟩
          · exact absurd h hax
          · exact ⟨List.mem_cons_of_mem _ h1,
              fun hs => h2 (List.mem_cons_of_mem _ hs)⟩
        · intro ⟨h1, h2⟩
          rcases List.mem_cons.mp h1 with h | h
          · exact absurd h hax
          · refine Or.inr ⟨h, ?_⟩
            intro hs
            rcases List.mem_cons.mp hs with h' | h'
            · exact hax h'
            · exact h2 h'

theorem mem_jsSet {a : String} {l : List String} : a ∈ jsSet l ↔ a ∈ l := by
  rw [jsSet, mem_jsSetAux]
  simp

theorem jsSetAux_sublist : ∀ (l seen : List String),
    (jsSetAux seen l).Sublist l := by
  intro l
  induction l with
  | nil => intro seen; exact List.Sublist.refl _
  | cons x xs ih =>
    intro seen
    rw [jsSetAux]
    split
    · exact (ih seen).cons x
    · exact (ih (x :: seen)).cons₂ x

theorem jsSet_sublist (l : List String) : (jsSet l).Sublist l :=
  jsSetAux_sublist l []

theorem nodup_jsSetAux : ∀ (l seen : List String), (jsSetAux seen l).Nodup := by
  intro l
  induction l with
  | nil => intro seen; exact List.nodup_nil
  | cons x xs ih =>
    intro seen
    rw [jsSetAux]
    split
    · exact ih seen
    · refine List.Nodup.cons ?_ (ih (x :: seen))
      intro hx
      exact absurd (List.mem_cons_self x seen)
        ((mem_jsSetAux xs (x :: seen)).mp hx).2

theorem nodup_jsSet (l : List String) : (jsSet l).Nodup := nodup_jsSetAux l []

theorem jsSetAux_eq_self : ∀ {l seen : List String},
    (∀ x ∈ l, x ∉ seen) → l.Nodup → jsSetAux seen l = l := by
  intro l
  induction l with
  | nil => intro seen _ _; rfl
  | cons x xs ih =>
    intro seen hseen hnd
    have hx : x ∉ seen := hseen x (List.mem_cons_self _ _)
    rw [jsSetAux, if_neg (by simpa [List.elem_iff] using hx)]
    congr 1
    refine ih ?_ (List.nodup_cons.mp hnd).2
    intro y hy hys
    rcases List.mem_cons.mp hys with h | h
    · exact (List.nodup_cons.mp hnd).1 (h ▸ hy)
    · exact hseen y (List.mem_cons_of_mem _ hy) h

theorem jsSet_eq_self_of_nodup {l : List String} (h : l.Nodup) :
    jsSet l = l :=
  jsSetAux_eq_self (by simp) h

theorem hasDup_eq_false_iff {l : List String} : hasDup l = false ↔ l.Nodup := by
  constructor
  · intro h
    have hlen : (jsSet l).length = l.length := by
      simpa [hasDup] using h
    have := (jsSet_sublist l).eq_of_length hlen
    exact this ▸ nodup_jsSet l
  · intro h
    simp [hasDup, jsSet_eq_self_of_nodup h]

/-! ### Lemmas: association maps -/

theorem alookup_nil (o : String) : alookup ([] : List (String × α)) o = none := rfl

theorem alookup_cons (p : String × α) (m : List (String × α)) (o : String) :
    alookup (p :: m) o = if p.1 = o then some p.2 else alookup m o := by
  by_cases h : p.1 = o
  · have hb : (p.1 == o) = true := by simpa using h
    rw [if_pos h]
    simp [alookup, List.find?_cons, hb]
  · have hb : (p.1 == o) = false := by simpa using h
    rw [if_neg h]
    simp [alookup, List.find?_cons, hb]

theorem alookup_append (m₁ m₂ : List (String × α)) (o : String) :
    alookup (m₁ ++ m₂) o = (alookup m₁ o).or (alookup m₂ o) := by
  induction m₁ with
  | nil => simp [alookup_nil]
  | cons p m ih =>
    rw [List.cons_append, alookup_cons, alookup_cons]
    by_cases h : p.1 = o <;> simp [h, ih]

theorem alookup_isSome_iff (m : List (String × α)) (o : String) :
    (alookup m o).isSome ↔ o ∈ m.map Prod.fst := by
  induction m with
  | nil => simp [alookup_nil]
  | cons p m ih =>
    rw [alookup_cons, List.map_cons, List.mem_cons]
    by_cases h : p.1 = o
    · simp [h]
    · have h' : ¬ o = p.1 := fun he => h he.symm
      simp [h, h', ih]

theorem alookup_eq_none_iff (m : List (String × α)) (o : String) :
    alookup m o = none ↔ o ∉ m.map Prod.fst := by
  rw [← alookup_isSome_iff, Option.isSome_iff_ne_none]
  tauto

theorem incr_cons (p : String × Nat) (m : List (String × Nat)) (k : String) :
    incr (p :: m) k =
      (if p.1 = k then (p.1, p.2 + 1) else p) :: incr m k := by
  by_cases h : p.1 = k
  · simp [incr, h]
  · simp [incr, h]

theorem setKey_cons (p : String × α) (m : List (String × α)) (k : String)
    (v : α) :
    setKey (p :: m) k v = (if p.1 = k then (p.1, v) else p) :: setKey m k v := by
  by_cases h : p.1 = k
  · simp [setKey, h]
  · simp [setKey, h]

theorem keys_incr (m : List (String × Nat)) (k : String) :
    (incr m k).map Prod.fst = m.map Prod.fst := by
  induction m with
  | nil => rfl
  | cons p m ih =>
    rw [incr_cons, List.map_cons, List.map_cons, ih]
    by_cases h : p.1 = k <;> simp [h]

theorem keys_setKey (m : List (String × α)) (k : String) (v : α) :
    (setKey m k v).map Prod.fst = m.map Prod.fst := by
  induction m with
  | nil => rfl
  | cons p m ih =>
    rw [setKey_cons, List.map_cons, List.map_cons, ih]
    by_cases h : p.1 = k <;> simp [h]

theorem alookup_incr_self (m : List (String × Nat)) (k : String) :
    alookup (incr m k) k = (alookup m k).map (· + 1) := by
  induction m with
  | nil => simp [incr, alookup_nil]
  | cons p m ih =>
    rw [incr_cons, alookup_cons, alookup_cons]
    by_cases hpk : p.1 = k
    · simp [hpk]
    · simp [hpk, ih]

theorem alookup_incr_ne (m : List (String × Nat)) (k o : String)
    (h : o ≠ k) : alookup (incr m k) o = alookup m o := by
  have hko : ¬ k = o := fun he => h he.symm
  induction m with
  | nil => simp [incr, alookup_nil]
  | cons p m ih =>
    rw [incr_cons, alookup_cons, alookup_cons]
    by_cases hpk : p.1 = k
    · have hpo : ¬ p.1 = o := fun hpo => h ((hpo.symm).trans hpk)
      simp [hpk, hpo, hko, ih]
    · by_cases hpo : p.1 = o
      · simp [hpk, hpo, hko, h]
      · simp [hpk, hpo, ih]

theorem alookup_setKey_self (m : List (String × α)) (k : String) (v : α) :
    alookup (setKey m k v) k = (alookup m k).map (fun _ => v) := by
  induction m with
  | nil => simp [setKey, alookup_nil]
  | cons p m ih =>
    rw [setKey_cons, alookup_cons, alookup_cons]
    by_cases hpk : p.1 = k
    · simp [hpk]
    · simp [hpk, ih]

theorem alookup_setKey_ne (m : List (String × α)) (k : String) (v : α)
    (o : String) (h : o ≠ k) :
    alookup (setKey m k v) o = alookup m o := by
  have hko : ¬ k = o := fun he => h he.symm
  induction m with
  | nil => simp [setKey, alookup_nil]
  | cons p m ih =>
    rw [setKey_cons, alookup_cons, alookup_cons]
    by_cases hpk : p.1 = k
    · have hpo : ¬ p.1 = o := fun hpo => h ((hpo.symm).trans hpk)
      simp [hpk, hpo, hko, ih]
    · by_cases hpo : p.1 = o
      · simp [hpk, hpo, hko, h]
      · simp [hpk, hpo, ih]

theorem incr_of_not_mem {m : List (String × Nat)} {k : String}
    (h : k ∉ m.map Prod.fst) : incr m k = m := by
  induction m with
  | nil => rfl
  | cons p m ih =>
    simp only [List.map_cons, List.mem_cons, not_or] at h
    rw [incr_cons, if_neg (fun he => h.1 he.symm), ih h.2]

/-! ### Lemmas: the per-round tally -/

theorem find?_isSome_eq_any (l : List α) (p : α → Bool) :
    (l.find? p).isSome = l.any p := by
  rw [Bool.eq_iff_iff, List.find?_isSome, List.any_eq_true]

theorem getActiveChoice_mem {b active : List String} {s : String}
    (h : getActiveChoice b active = some s) : s ∈ active := by
  have := List.find?_some h
  simpa [List.elem_iff] using this

theorem getActiveChoice_isSome (b active : List String) :
    (getActiveChoice b active).isSome = b.any (fun x => active.contains x) :=
  find?_isSome_eq_any b _

theorem keys_foldl_tallyStep (choices : List (Option String)) :
    ∀ (m : List (String × Nat)),
      (choices.foldl tallyStep m).map Prod.fst = m.map Prod.fst := by
  induction choices with
  | nil => intro m; rfl
  | cons c cs ih =>
    intro m
    cases c with
    | none => exact ih m
    | some s =>
      rw [List.foldl_cons]
      by_cases hse : s = ""
      · rw [show tallyStep m (some s) = m by simp [tallyStep, hse]]
        exact ih m
      · rw [show tallyStep m (some s) = incr m s by simp [tallyStep, hse]]
        exact (ih _).trans (keys_incr m s)

theorem keys_init_zero (active : List String) :
    (active.map (fun option => (option, 0))).map Prod.fst = active := by
  induction active with
  | nil => rfl
  | cons a l ih => simp [ih]

theorem sum_init_zero (active : List String) :
    ((active.map (fun option => (option, (0 : Nat)))).map Prod.snd).sum = 0 := by
  induction active with
  | nil => rfl
  | cons a l ih =>
    rw [List.map_cons, List.map_cons, List.sum_cons, ih]

theorem keys_roundTallyOf (active : List String)
    (choices : List (Option String)) :
    (roundTallyOf active choices).map Prod.fst = active := by
  rw [roundTallyOf, keys_foldl_tallyStep, keys_init_zero]

theorem alookup_init_zero (active : List String) (o : String) :
    alookup (active.map (fun option => (option, 0))) o =
      if o ∈ active then some 0 else none := by
  induction active with
  | nil => simp [alookup_nil]
  | cons a l ih =>
    rw [List.map_cons, alookup_cons]
    by_cases h : a = o
    · simp [h]
    · have h' : ¬ o = a := fun he => h he.symm
      simp [h, h', ih]

theorem alookup_foldl_tallyStep (o : String) (choices : List (Option String)) :
    ∀ (m : List (String × Nat)),
      alookup (choices.foldl tallyStep m) o =
        (alookup m o).map
          (· + choices.countP (fun c => c == some o && o != "")) := by
  induction choices with
  | nil =>
    intro m
    cases h : alookup m o <;> simp [h]
  | cons c cs ih =>
    intro m
    rw [List.foldl_cons, List.countP_cons]
    cases c with
    | none =>
      rw [ih]
      simp [tallyStep]
    | some s =>
      by_cases hse : s = ""
      · rw [show tallyStep m (some s) = m by simp [tallyStep, hse], ih]
        subst hse
        by_cases ho : o = ""
        · subst ho
          simp
        · have : ((some "" == some o) : Bool) = false := by
            simpa using fun he => ho he.symm
          simp [this]
      · by_cases hso : s = o
        · subst hso
          rw [show tallyStep m (some s) = incr m s by simp [tallyStep, hse],
            ih, alookup_incr_self]
          have hne : (s != "") = true := by simpa using hse
          cases h : alookup m s <;> simp [h, hne] <;> omega
        · rw [show tallyStep m (some s) = incr m s by simp [tallyStep, hse],
            ih, alookup_incr_ne m s o (fun he => hso he.symm)]
          have : ((some s == some o) : Bool) = false := by simpa using hso
          simp [this]

theorem alookup_roundTallyOf (active : List String)
    (choices : List (Option String)) (o : String) :
    alookup (roundTallyOf active choices) o =
      if o ∈ active then
        some (choices.countP (fun c => c == some o && o != ""))
      else none := by
  rw [roundTallyOf, alookup_foldl_tallyStep, alookup_init_zero]
  by_cases h : o ∈ active <;> simp [h]

theorem sum_incr_of_mem :
    ∀ {m : List (String × Nat)} {k : String},
      (m.map Prod.fst).Nodup → k ∈ m.map Prod.fst →
      ((incr m k).map Prod.snd).sum = (m.map Prod.snd).sum + 1 := by
  intro m
  induction m with
  | nil => intro k _ hk; simp at hk
  | cons p m ih =>
    intro k hnd hk
    rw [List.map_cons] at hnd hk
    rw [incr_cons]
    by_cases hpk : p.1 = k
    · have hknot : k ∉ m.map Prod.fst := hpk ▸ (List.nodup_cons.mp hnd).1
      rw [if_pos hpk, incr_of_not_mem hknot]
      simp [Nat.add_assoc, Nat.add_comm 1]
    · have hkm : k ∈ m.map Prod.fst := by
        rcases List.mem_cons.mp hk with h | h
        · exact absurd h.symm hpk
        · exact h
      rw [if_neg hpk, List.map_cons, List.map_cons, List.sum_cons, List.sum_cons,
        ih (List.nodup_cons.mp hnd).2 hkm]
      omega

theorem sum_foldl_tallyStep (choices : List (Option String)) :
    ∀ (m : List (String × Nat)),
      (m.map Prod.fst).Nodup →
      (∀ s : String, some s ∈ choices → s ≠ "" → s ∈ m.map Prod.fst) →
      ((choices.foldl tallyStep m).map Prod.snd).sum =
        (m.map Prod.snd).sum + choices.countP truthyChoice := by
  induction choices with
  | nil => intro m _ _; simp
  | cons c cs ih =>
    intro m hnd hin
    rw [List.foldl_cons, List.countP_cons]
    cases c with
    | none =>
      rw [show tallyStep m none = m from rfl,
        ih m hnd (fun s hs => hin s (List.mem_cons_of_mem _ hs))]
      simp [truthyChoice]
    | some s =>
      by_cases hse : s = ""
      · rw [show tallyStep m (some s) = m by simp [tallyStep, hse],
          ih m hnd (fun s' hs' => hin s' (List.mem_cons_of_mem _ hs'))]
        subst hse
        simp [truthyChoice]
      · have hs : s ∈ m.map Prod.fst := hin s (List.mem_cons_self _ _) hse
        rw [show tallyStep m (some s) = incr m s by simp [tallyStep, hse],
          ih (incr m s) (by rw [keys_incr]; exact hnd)
            (fun s' hs' hs'e => by
              rw [keys_incr]
              exact hin s' (List.mem_cons_of_mem _ hs') hs'e),
          sum_incr_of_mem hnd hs]
        have ht : truthyChoice (some s) = true := by simp [truthyChoice, hse]
        simp [ht, Nat.add_assoc, Nat.add_comm 1]

theorem sum_roundTallyOf (active : List String)
    (choices : List (Option String)) (hnd : active.Nodup)
    (hin : ∀ s : String, some s ∈ choices → s ≠ "" → s ∈ active) :
    ((roundTallyOf active choices).map Prod.snd).sum =
      choices.countP truthyChoice := by
  rw [roundTallyOf,
    sum_foldl_tallyStep choices _ (by rw [keys_init_zero]; exact hnd)
      (fun s hs hse => by rw [keys_init_zero]; exact hin s hs hse),
    sum_init_zero]
  simp

/-! ### Lemmas: minimum scan and elimination set -/

theorem foldl_minStep_some (l : List (String × Nat)) :
    ∀ (a : Nat), ∃ m, l.foldl minStep (some a) = some m ∧ m ≤ a ∧
      (m = a ∨ ∃ p ∈ l, p.2 = m) ∧ ∀ p ∈ l, m ≤ p.2 := by
  induction l with
  | nil => intro a; exact ⟨a, rfl, le_refl a, Or.inl rfl, by simp⟩
  | cons p l ih =>
    intro a
    rw [List.foldl_cons]
    by_cases hp : p.2 < a
    · have hstep : minStep (some a) p = some p.2 := by simp [minStep, hp]
      rw [hstep]
      obtain ⟨m, hm, hma, hwit, hall⟩ := ih p.2
      refine ⟨m, hm, le_of_lt (lt_of_le_of_lt hma hp), ?_, ?_⟩
      · rcases hwit with h | ⟨q, hq, hqm⟩
        · exact Or.inr ⟨p, List.mem_cons_self _ _, h.symm⟩
        · exact Or.inr ⟨q, List.mem_cons_of_mem _ hq, hqm⟩
      · intro q hq
        rcases List.mem_cons.mp hq with h | h
        · exact h ▸ hma
        · exact hall q h
    · have hstep : minStep (some a) p = some a := by simp [minStep, hp]
      rw [hstep]
      obtain ⟨m, hm, hma, hwit, hall⟩ := ih a
      refine ⟨m, hm, hma, ?_, ?_⟩
      · rcases hwit with h | ⟨q, hq, hqm⟩
        · exact Or.inl h
        · exact Or.inr ⟨q, List.mem_cons_of_mem _ hq, hqm⟩
      · intro q hq
        rcases List.mem_cons.mp hq with h | h
        · exact h ▸ (hma.trans (le_of_not_lt hp))
        · exact hall q h

theorem minVotes_spec (tally : List (String × Nat)) (h : tally ≠ []) :
    ∃ m, minVotes tally = some m ∧ (∃ p ∈ tally, p.2 = m) ∧
      ∀ p ∈ tally, m ≤ p.2 := by
  match tally, h with
  | p :: l, _ =>
    rw [minVotes, List.foldl_cons, show minStep none p = some p.2 from rfl]
    obtain ⟨m, hm, hma, hwit, hall⟩ := foldl_minStep_some l p.2
    refine ⟨m, hm, ?_, ?_⟩
    · rcases hwit with h | ⟨q, hq, hqm⟩
      · exact ⟨p, List.mem_cons_self _ _, h.symm⟩
      · exact ⟨q, List.mem_cons_of_mem _ hq, hqm⟩
    · intro q hq
      rcases List.mem_cons.mp hq with h | h
      · exact h ▸ hma
      · exact hall q h

theorem toEliminateOf_sublist (tally : List (String × Nat)) :
    (toEliminateOf tally).Sublist (tally.map Prod.fst) := by
  rw [toEliminateOf]
  cases h : minVotes tally with
  | none => exact List.nil_sublist _
  | some m => exact List.Sublist.map Prod.fst (List.filter_sublist tally)

theorem toEliminateOf_ne_nil {tally : List (String × Nat)} (h : tally ≠ []) :
    toEliminateOf tally ≠ [] := by
  obtain ⟨m, hm, ⟨p, hp, hpm⟩, _⟩ := minVotes_spec tally h
  have heq : toEliminateOf tally =
      (tally.filter (fun q => q.2 == m)).map Prod.fst := by
    rw [toEliminateOf, hm]
  have hpf : p ∈ tally.filter (fun q => q.2 == m) :=
    List.mem_filter.mpr ⟨hp, by simp [hpm]⟩
  intro hnil
  have hmem : p.1 ∈ (tally.filter (fun q => q.2 == m)).map Prod.fst :=
    List.mem_map_of_mem Prod.fst hpf
  rw [← heq, hnil] at hmem
  exact absurd hmem (List.not_mem_nil _)

theorem narrowByApproval_sublist (percs : List (String × JNum))
    (toElim : List String) :
    (narrowByApproval percs toElim).Sublist toElim := by
  simp only [narrowByApproval]
  split
  · exact List.filter_sublist toElim
  · exact List.Sublist.refl toElim

theorem narrowByApproval_ne_nil (percs : List (String × JNum))
    {toElim : List String} (h : toElim ≠ []) :
    narrowByApproval percs toElim ≠ [] := by
  simp only [narrowByApproval]
  split
  · next hc =>
    intro hnil
    rw [hnil] at hc
    simp at hc
  · exact h

theorem eliminationSet_sublist (cfg : Config) (percs : List (String × JNum))
    (tally : List (String × Nat)) :
    (eliminationSet cfg percs tally).Sublist (toEliminateOf tally) := by
  simp only [eliminationSet]
  split
  · exact narrowByApproval_sublist percs (toEliminateOf tally)
  · exact List.Sublist.refl _

theorem eliminationSet_ne_nil (cfg : Config) (percs : List (String × JNum))
    {tally : List (String × Nat)} (h : tally ≠ []) :
    eliminationSet cfg percs tally ≠ [] := by
  simp only [eliminationSet]
  split
  · exact narrowByApproval_ne_nil percs (toEliminateOf_ne_nil h)
  · exact toEliminateOf_ne_nil h

theorem length_filter_not_contains {active toElim : List String}
    (hnd : active.Nodup) (hTnd : toElim.Nodup)
    (hsub : ∀ x ∈ toElim, x ∈ active) :
    (active.filter (fun o => !toElim.contains o)).length =
      active.length - toElim.length := by
  have hmemkeep : (active.filter (fun o => toElim.contains o)).length =
      toElim.length := by
    apply Nat.le_antisymm
    · have hnds : (active.filter (fun o => toElim.contains o)).Nodup :=
        (List.filter_sublist active).nodup hnd
      have hss : ∀ x ∈ active.filter (fun o => toElim.contains o), x ∈ toElim := by
        intro x hx
        have := (List.mem_filter.mp hx).2
        simpa [List.elem_iff] using this
      exact (List.subperm_of_subset hnds hss).length_le
    · have hss : ∀ x ∈ toElim, x ∈ active.filter (fun o => toElim.contains o) := by
        intro x hx
        exact List.mem_filter.mpr ⟨hsub x hx, by simpa [List.elem_iff] using hx⟩
      exact (List.subperm_of_subset hTnd hss).length_le
  have hsplit : active.length =
      (active.filter (fun o => toElim.contains o)).length +
        (active.filter (fun o => !toElim.contains o)).length :=
    List.length_eq_length_filter_add _
  omega

/-! ### Lemmas: `JNum` comparisons and the approval minimum -/

theorem JNum.ltb_irrefl (x : JNum) : JNum.ltb x x = false := by
  cases x <;> simp [JNum.ltb]

theorem JNum.ltb_false_trans {x a y : JNum} (h1 : JNum.ltb x a = false)
    (h2 : JNum.ltb y a = true) : JNum.ltb x y = false := by
  cases x with
  | nan => rfl
  | inf => cases y <;> rfl
  | fin xn xd =>
    cases y with
    | nan => rfl
    | inf => cases a <;> simp [JNum.ltb] at h2
    | fin yn yd =>
      cases a with
      | nan => simp [JNum.ltb] at h2
      | inf => simp [JNum.ltb] at h1
      | fin an ad =>
        simp only [JNum.ltb, decide_eq_false_iff_not, Nat.not_lt] at h1
        simp only [JNum.ltb, decide_eq_true_eq] at h2
        simp only [JNum.ltb, decide_eq_false_iff_not, Nat.not_lt]
        have key : yn * xd.val * ad.val < xn * yd.val * ad.val := by
          calc yn * xd.val * ad.val = yn * ad.val * xd.val := by ring
            _ < an * yd.val * xd.val :=
              Nat.mul_lt_mul_of_lt_of_le h2 (Nat.le_refl _) xd.2
            _ = an * xd.val * yd.val := by ring
            _ ≤ xn * ad.val * yd.val := Nat.mul_le_mul_right _ h1
            _ = xn * yd.val * ad.val := by ring
        exact Nat.le_of_lt (Nat.lt_of_mul_lt_mul_right key)

theorem JNum.ltb_false_of_eqb {x b m : JNum} (heq : JNum.eqb b m = true)
    (h : JNum.ltb x m = false) : JNum.ltb x b = false := by
  cases b with
  | nan => cases m <;> simp [JNum.eqb] at heq <;> cases x <;> rfl
  | inf =>
    cases m with
    | inf => exact h
    | nan => simp [JNum.eqb] at heq
    | fin _ _ => simp [JNum.eqb] at heq
  | fin bn bd =>
    cases m with
    | nan => simp [JNum.eqb] at heq
    | inf => simp [JNum.eqb] at heq
    | fin mn md =>
      simp only [JNum.eqb, beq_iff_eq] at heq
      cases x with
      | nan => rfl
      | inf => rfl
      | fin xn xd =>
        simp only [JNum.ltb, decide_eq_false_iff_not, Nat.not_lt] at h
        simp only [JNum.ltb, decide_eq_false_iff_not, Nat.not_lt]
        have key : bn * xd.val * md.val ≤ xn * bd.val * md.val := by
          calc bn * xd.val * md.val = bn * md.val * xd.val := by ring
            _ = mn * bd.val * xd.val := by rw [heq]
            _ = mn * xd.val * bd.val := by ring
            _ ≤ xn * md.val * bd.val := Nat.mul_le_mul_right _ h
            _ = xn * bd.val * md.val := by ring
        exact Nat.le_of_mul_le_mul_right key md.2

theorem foldl_apprMinStep_not_lt (percs : List (String × JNum))
    (l : List String) :
    ∀ (a : JNum),
      (∀ x, JNum.ltb x a = false →
        JNum.ltb x (l.foldl (apprMinStep percs) a) = false) ∧
      (∀ o ∈ l,
        JNum.ltb (getPerc percs o) (l.foldl (apprMinStep percs) a) = false) := by
  induction l with
  | nil => intro a; exact ⟨fun x h => h, by simp⟩
  | cons o l ih =>
    intro a
    rw [List.foldl_cons]
    have key : (∀ x, JNum.ltb x a = false →
        JNum.ltb x (apprMinStep percs a o) = false) ∧
        JNum.ltb (getPerc percs o) (apprMinStep percs a o) = false := by
      rw [apprMinStep]
      by_cases h : (getPerc percs o).ltb a = true
      · rw [if_pos h]
        exact ⟨fun x hx => JNum.ltb_false_trans hx h, JNum.ltb_irrefl _⟩
      · have hf : (getPerc percs o).ltb a = false := by
          cases hb : (getPerc percs o).ltb a
          · rfl
          · exact absurd hb h
        rw [if_neg h]
        exact ⟨fun x hx => hx, hf⟩
    obtain ⟨ih1, ih2⟩ := ih (apprMinStep percs a o)
    refine ⟨fun x hx => ih1 x (key.1 x hx), ?_⟩
    intro o' ho'
    rcases List.mem_cons.mp ho' with h | h
    · exact h ▸ ih1 _ key.2
    · exact ih2 o' h

theorem not_ltb_minApprovalPercentage (percs : List (String × JNum))
    (toElim : List String) :
    ∀ o ∈ toElim,
      JNum.ltb (getPerc percs o) (minApprovalPercentage percs toElim) = false :=
  (foldl_apprMinStep_not_lt percs toElim .inf).2

/-! ### Lemmas: transfer accounting -/

/-- The total number of ballots recorded as transferred away from `src`
in a round's transfer map (summed over all destinations, `"exhausted"`
included); `0` when `src` has no entry. -/
def transferTotal (t : List (String × List (String × Nat)))
    (src : String) : Nat :=
  match alookup t src with
  | none => 0
  | some inner => (inner.map Prod.snd).sum

/-- Well-formedness of a transfer map: outer and inner key lists are
duplicate-free (guaranteed by construction, since keys are only appended
when absent). -/
def TMapOK (t : List (String × List (String × Nat))) : Prop :=
  (t.map Prod.fst).Nodup ∧ ∀ p ∈ t, (p.2.map Prod.fst).Nodup

theorem alookup_mem {m : List (String × α)} {k : String} {v : α}
    (h : alookup m k = some v) : (k, v) ∈ m := by
  rw [alookup] at h
  cases hf : m.find? (fun p => p.1 == k) with
  | none => rw [hf] at h; exact absurd h (by simp)
  | some q =>
    rw [hf] at h
    have hq : q ∈ m := List.mem_of_find?_eq_some hf
    have hk : q.1 = k := by simpa using List.find?_some hf
    have hv : q.2 = v := by simpa using h
    have : q = (k, v) := Prod.ext hk hv
    exact this ▸ hq

theorem setKey_of_not_mem {m : List (String × α)} {k : String} {v : α}
    (h : k ∉ m.map Prod.fst) : setKey m k v = m := by
  induction m with
  | nil => rfl
  | cons p m ih =>
    simp only [List.map_cons, List.mem_cons, not_or] at h
    rw [setKey_cons, if_neg (fun he => h.1 he.symm), ih h.2]

theorem setKey_succ_eq_incr :
    ∀ {inner : List (String × Nat)} {tgt : String} {n : Nat},
      (inner.map Prod.fst).Nodup → alookup inner tgt = some n →
      setKey inner tgt (n + 1) = incr inner tgt := by
  intro inner
  induction inner with
  | nil => intro tgt n _ h; rw [alookup_nil] at h; exact absurd h (by simp)
  | cons p m ih =>
    intro tgt n hnd h
    rw [List.map_cons] at hnd
    rw [alookup_cons] at h
    rw [setKey_cons, incr_cons]
    by_cases hpt : p.1 = tgt
    · have hn : p.2 = n := by
        rw [if_pos hpt] at h
        simpa using h
      have htgt_not : tgt ∉ m.map Prod.fst := hpt ▸ (List.nodup_cons.mp hnd).1
      rw [if_pos hpt, if_pos hpt, hn,
        setKey_of_not_mem htgt_not, incr_of_not_mem htgt_not]
    · rw [if_neg hpt] at h
      rw [if_neg hpt, if_neg hpt, ih (List.nodup_cons.mp hnd).2 h]

theorem setKey_TMapOK {t : List (String × List (String × Nat))}
    (h : TMapOK t) {src : String} {inner : List (String × Nat)}
    (hv : (inner.map Prod.fst).Nodup) : TMapOK (setKey t src inner) := by
  constructor
  · rw [keys_setKey]; exact h.1
  · intro p hp
    obtain ⟨q, hq, hfq⟩ := List.mem_map.mp hp
    by_cases hqs : q.1 = src
    · rw [if_pos (by simpa using hqs)] at hfq
      rw [← hfq]
      exact hv
    · rw [if_neg (by simpa using hqs)] at hfq
      exact hfq ▸ h.2 q hq

theorem addTransfer_TMapOK {t : List (String × List (String × Nat))}
    (h : TMapOK t) (src tgt : String) : TMapOK (addTransfer t src tgt) := by
  cases hsrc : alookup t src with
  | none =>
    have heq : addTransfer t src tgt = t ++ [(src, [(tgt, 1)])] := by
      simp only [addTransfer, hsrc]
    rw [heq]
    constructor
    · rw [List.map_append]
      have hnot : src ∉ t.map Prod.fst :=
        (alookup_eq_none_iff t src).mp hsrc
      simpa [List.nodup_append] using ⟨h.1, by simpa using hnot⟩
    · intro p hp
      rcases List.mem_append.mp hp with hp | hp
      · exact h.2 p hp
      · have : p = (src, [(tgt, 1)]) := by simpa using hp
        subst this
        simp
  | some inner =>
    cases htgt : alookup inner tgt with
    | none =>
      have heq : addTransfer t src tgt = setKey t src (inner ++ [(tgt, 1)]) := by
        simp only [addTransfer, hsrc, htgt]
      rw [heq]
      have hinner_nd : (inner.map Prod.fst).Nodup :=
        h.2 _ (alookup_mem hsrc)
      have htgt_not : tgt ∉ inner.map Prod.fst :=
        (alookup_eq_none_iff inner tgt).mp htgt
      refine setKey_TMapOK h ?_
      rw [List.map_append]
      simpa [List.nodup_append] using ⟨hinner_nd, by simpa using htgt_not⟩
    | some n =>
      have heq : addTransfer t src tgt =
          setKey t src (setKey inner tgt (n + 1)) := by
        simp only [addTransfer, hsrc, htgt]
      rw [heq]
      refine setKey_TMapOK h ?_
      rw [keys_setKey]
      exact h.2 _ (alookup_mem hsrc)

theorem transferTotal_addTransfer_self {t : List (String × List (String × Nat))}
    (h : TMapOK t) (src tgt : String) :
    transferTotal (addTransfer t src tgt) src = transferTotal t src + 1 := by
  cases hsrc : alookup t src with
  | none =>
    have heq : addTransfer t src tgt = t ++ [(src, [(tgt, 1)])] := by
      simp only [addTransfer, hsrc]
    rw [heq, transferTotal, transferTotal, alookup_append, hsrc]
    simp [alookup_cons]
  | some inner =>
    cases htgt : alookup inner tgt with
    | none =>
      have heq : addTransfer t src tgt = setKey t src (inner ++ [(tgt, 1)]) := by
        simp only [addTransfer, hsrc, htgt]
      rw [heq, transferTotal, transferTotal, alookup_setKey_self, hsrc]
      simp
    | some n =>
      have hinner_nd : (inner.map Prod.fst).Nodup := h.2 _ (alookup_mem hsrc)
      have htgt_mem : tgt ∈ inner.map Prod.fst := by
        rw [← alookup_isSome_iff, htgt]; rfl
      have heq : addTransfer t src tgt =
          setKey t src (setKey inner tgt (n + 1)) := by
        simp only [addTransfer, hsrc, htgt]
      rw [heq, transferTotal, transferTotal, alookup_setKey_self, hsrc,
        setKey_succ_eq_incr hinner_nd htgt]
      simpa using sum_incr_of_mem hinner_nd htgt_mem

theorem transferTotal_addTransfer_ne (t : List (String × List (String × Nat)))
    (src tgt s : String) (hs : s ≠ src) :
    transferTotal (addTransfer t src tgt) s = transferTotal t s := by
  cases hsrc : alookup t src with
  | none =>
    have heq : addTransfer t src tgt = t ++ [(src, [(tgt, 1)])] := by
      simp only [addTransfer, hsrc]
    rw [heq, transferTotal, transferTotal, alookup_append]
    have hone : alookup [(src, [(tgt, 1)])] s = none := by
      rw [alookup_cons, if_neg (fun he : src = s => hs he.symm), alookup_nil]
    rw [hone]
    cases alookup t s <;> rfl
  | some inner =>
    cases htgt : alookup inner tgt with
    | none =>
      have heq : addTransfer t src tgt = setKey t src (inner ++ [(tgt, 1)]) := by
        simp only [addTransfer, hsrc, htgt]
      rw [heq, transferTotal, transferTotal, alookup_setKey_ne _ _ _ _ hs]
    | some n =>
      have heq : addTransfer t src tgt =
          setKey t src (setKey inner tgt (n + 1)) := by
        simp only [addTransfer, hsrc, htgt]
      rw [heq, transferTotal, transferTotal, alookup_setKey_ne _ _ _ _ hs]

theorem transferStep_none (elim newActive : List String)
    (acc : List (String × List (String × Nat)) × List (Option String))
    (p : Ballot × Option String) (h : p.2 = none) :
    transferStep elim newActive acc p = (acc.1, acc.2 ++ [p.2]) := by
  simp [transferStep, h]

theorem transferStep_pos (elim newActive : List String)
    (acc : List (String × List (String × Nat)) × List (Option String))
    (p : Ballot × Option String) (c : String) (h : p.2 = some c)
    (hc : c ≠ "" ∧ elim.contains c = true) :
    transferStep elim newActive acc p =
      (addTransfer acc.1 c
        (match getTransferChoice p.1.rankings newActive with
         | some n => if n = "" then "exhausted" else n
         | none => "exhausted"),
       acc.2 ++ [getTransferChoice p.1.rankings newActive]) := by
  simp only [transferStep, h]
  split
  · rfl
  · next hn => exact absurd hc hn

theorem transferStep_neg (elim newActive : List String)
    (acc : List (String × List (String × Nat)) × List (Option String))
    (p : Ballot × Option String) (c : String) (h : p.2 = some c)
    (hc : ¬(c ≠ "" ∧ elim.contains c = true)) :
    transferStep elim newActive acc p = (acc.1, acc.2 ++ [p.2]) := by
  simp only [transferStep, h]
  split
  · next hpos => exact absurd hpos hc
  · rfl

theorem foldl_transferStep_total (elim newActive : List String) (s : String)
    (hs : s ∈ elim) (pairs : List (Ballot × Option String)) :
    ∀ (acc : List (String × List (String × Nat)) × List (Option String)),
      TMapOK acc.1 →
      transferTotal (pairs.foldl (transferStep elim newActive) acc).1 s =
        transferTotal acc.1 s +
          pairs.countP (fun p => p.2 == some s && s != "") := by
  induction pairs with
  | nil => intro acc _; simp
  | cons p ps ih =>
    intro acc hok
    rw [List.foldl_cons, List.countP_cons]
    cases hp2 : p.2 with
    | none =>
      rw [transferStep_none elim newActive acc p hp2,
        ih (acc.1, acc.2 ++ [p.2]) hok]
      simp [hp2]
    | some c =>
      by_cases hc : c ≠ "" ∧ elim.contains c = true
      · rw [transferStep_pos elim newActive acc p c hp2 hc,
          ih (addTransfer acc.1 c
              (match getTransferChoice p.1.rankings newActive with
               | some n => if n = "" then "exhausted" else n
               | none => "exhausted"),
             acc.2 ++ [getTransferChoice p.1.rankings newActive])
            (addTransfer_TMapOK hok _ _)]
        by_cases hcs : c = s
        · subst hcs
          rw [transferTotal_addTransfer_self hok]
          have hcne : (c != "") = true := by simpa using hc.1
          simp [hp2, hcne]
          omega
        · rw [transferTotal_addTransfer_ne _ _ _ _ (fun he => hcs he.symm)]
          simp [hp2, hcs]
      · rw [transferStep_neg elim newActive acc p c hp2 hc,
          ih (acc.1, acc.2 ++ [p.2]) hok]
        have hpred : ((some c == some s) && (s != "")) = false := by
          by_cases hcs : c = s
          · subst hcs
            rcases not_and_or.mp hc with h1 | h2
            · have hceq : c = "" := not_not.mp h1
              subst hceq
              simp
            · exact absurd (by simpa [List.elem_iff] using hs) h2
          · have : ((some c == some s) : Bool) = false := by simpa using hcs
            simp [this]
        simp only [hp2, hpred]
        simp

theorem runTransfers_total (elim newActive : List String)
    (ballots : List Ballot) (choices : List (Option String)) (s : String)
    (hs : s ∈ elim) :
    transferTotal (runTransfers elim newActive ballots choices).1 s =
      (ballots.zip choices).countP (fun p => p.2 == some s && s != "") := by
  rw [runTransfers,
    foldl_transferStep_total elim newActive s hs (ballots.zip choices) ([], [])
      ⟨List.nodup_nil, by simp⟩]
  simp [transferTotal, alookup_nil]

theorem countP_zip_snd (p : Option String → Bool) :
    ∀ (ballots : List Ballot) (choices : List (Option String)),
      ballots.length = choices.length →
      (ballots.zip choices).countP (fun q => p q.2) = choices.countP p := by
  intro ballots
  induction ballots with
  | nil =>
    intro choices h
    cases choices with
    | nil => rfl
    | cons c cs => exact absurd h (by simp)
  | cons b bs ih =>
    intro choices h
    cases choices with
    | nil => exact absurd h (by simp)
    | cons c cs =>
      rw [List.zip_cons_cons, List.countP_cons, List.countP_cons,
        ih cs (by simpa using h)]

theorem foldl_transferStep_length (elim newActive : List String)
    (pairs : List (Ballot × Option String)) :
    ∀ (acc : List (String × List (String × Nat)) × List (Option String)),
      (pairs.foldl (transferStep elim newActive) acc).2.length =
        acc.2.length + pairs.length := by
  induction pairs with
  | nil => intro acc; simp
  | cons p ps ih =>
    intro acc
    rw [List.foldl_cons]
    have hlen : (transferStep elim newActive acc p).2.length =
        acc.2.length + 1 := by
      cases hp2 : p.2 with
      | none =>
        rw [transferStep_none elim newActive acc p hp2]
        simp
      | some c =>
        by_cases hc : c ≠ "" ∧ elim.contains c = true
        · rw [transferStep_pos elim newActive acc p c hp2 hc]
          simp
        · rw [transferStep_neg elim newActive acc p c hp2 hc]
          simp
    rw [ih, hlen, List.length_cons]
    omega

theorem runTransfers_length (elim newActive : List String)
    (ballots : List Ballot) (choices : List (Option String))
    (h : ballots.length = choices.length) :
    (runTransfers elim newActive ballots choices).2.length = ballots.length := by
  rw [runTransfers, foldl_transferStep_length]
  simpa using Nat.min_eq_left (le_of_eq h)

theorem foldl_transferStep_in (elim newActive : List String)
    (pairs : List (Ballot × Option String))
    (hkeep : ∀ q ∈ pairs, ∀ c : String, q.2 = some c → c ≠ "" →
      elim.contains c = false → c ∈ newActive) :
    ∀ (acc : List (String × List (String × Nat)) × List (Option String)),
      (∀ s : String, some s ∈ acc.2 → s ≠ "" → s ∈ newActive) →
      ∀ s : String,
        some s ∈ (pairs.foldl (transferStep elim newActive) acc).2 →
        s ≠ "" → s ∈ newActive := by
  induction pairs with
  | nil => intro acc hacc s hsmem hse; exact hacc s hsmem hse
  | cons p ps ih =>
    intro acc hacc s hsmem hse
    rw [List.foldl_cons] at hsmem
    refine ih (fun q hq => hkeep q (List.mem_cons_of_mem _ hq)) _ ?_ s hsmem hse
    intro s' hs' hs'e
    cases hp2 : p.2 with
    | none =>
      have hstep : (transferStep elim newActive acc p).2 = acc.2 ++ [p.2] := by
        rw [transferStep_none elim newActive acc p hp2]
      rw [hstep, hp2] at hs'
      rcases List.mem_append.mp hs' with h | h
      · exact hacc s' h hs'e
      · simp at h
    | some c =>
      by_cases hc : c ≠ "" ∧ elim.contains c = true
      · have hstep : (transferStep elim newActive acc p).2 =
            acc.2 ++ [getTransferChoice p.1.rankings newActive] := by
          rw [transferStep_pos elim newActive acc p c hp2 hc]
        rw [hstep] at hs'
        rcases List.mem_append.mp hs' with h | h
        · exact hacc s' h hs'e
        · have h' : some s' = getTransferChoice p.1.rankings newActive := by
            simpa using h
          exact getActiveChoice_mem h'.symm
      · have hstep : (transferStep elim newActive acc p).2 = acc.2 ++ [p.2] := by
          rw [transferStep_neg elim newActive acc p c hp2 hc]
        rw [hstep, hp2] at hs'
        rcases List.mem_append.mp hs' with h | h
        · exact hacc s' h hs'e
        · have hcs : s' = c := by simpa using h
          subst hcs
          have hnc : elim.contains s' = false := by
            rcases not_and_or.mp hc with h1 | h2
            · exact absurd (not_not.mp h1) hs'e
            · exact Bool.eq_false_iff.mpr h2
          exact hkeep p (List.mem_cons_self _ _) s' hp2 hs'e hnc

/-! ### Lemmas: one round -/

theorem runRound_cases (ballots : List Ballot) (cfg : Config) (threshold : Nat)
    (aC : List (String × Nat)) (aP : List (String × JNum)) (round : Nat)
    (active : List String) (choices : List (Option String)) :
    (∃ we, (roundTallyOf active choices).find? (fun p => threshold ≤ p.2) =
        some we ∧
      runRound ballots cfg threshold aC aP round active choices =
        ({ round := round, tally := roundTallyOf active choices,
           status := "Winner found", eliminated := [], transfers := [],
           approvalRatings := aC, approvalPercentages := aP },
         .winner we.1)) ∨
    ((roundTallyOf active choices).find? (fun p => threshold ≤ p.2) = none ∧
      (eliminationSet cfg aP (roundTallyOf active choices)).length =
        active.length ∧
      runRound ballots cfg threshold aC aP round active choices =
        ({ round := round, tally := roundTallyOf active choices,
           status := "Unbreakable tie",
           eliminated := eliminationSet cfg aP (roundTallyOf active choices),
           transfers := [], approvalRatings := aC,
           approvalPercentages := aP },
         .tie)) ∨
    ((roundTallyOf active choices).find? (fun p => threshold ≤ p.2) = none ∧
      (eliminationSet cfg aP (roundTallyOf active choices)).length ≠
        active.length ∧
      runRound ballots cfg threshold aC aP round active choices =
        ({ round := round, tally := roundTallyOf active choices,
           status := "Elimination",
           eliminated := eliminationSet cfg aP (roundTallyOf active choices),
           transfers := (runTransfers
             (eliminationSet cfg aP (roundTallyOf active choices))
             (active.filter (fun o =>
               !(eliminationSet cfg aP (roundTallyOf active choices)).contains o))
             ballots choices).1,
           approvalRatings := aC, approvalPercentages := aP },
         .elim
           (active.filter (fun o =>
             !(eliminationSet cfg aP (roundTallyOf active choices)).contains o))
           (runTransfers
             (eliminationSet cfg aP (roundTallyOf active choices))
             (active.filter (fun o =>
               !(eliminationSet cfg aP (roundTallyOf active choices)).contains o))
             ballots choices).2)) := by
  cases hw : (roundTallyOf active choices).find? (fun p => threshold ≤ p.2) with
  | some we =>
    refine Or.inl ⟨we, rfl, ?_⟩
    simp only [runRound, hw]
  | none =>
    by_cases hlen : (eliminationSet cfg aP (roundTallyOf active choices)).length
        = active.length
    · refine Or.inr (Or.inl ⟨rfl, hlen, ?_⟩)
      have hb : ((eliminationSet cfg aP (roundTallyOf active choices)).length ==
          active.length) = true := by simpa using hlen
      simp only [runRound, hw, hb, if_true]
    · refine Or.inr (Or.inr ⟨rfl, hlen, ?_⟩)
      have hb : ((eliminationSet cfg aP (roundTallyOf active choices)).length ==
          active.length) = false := by simpa using hlen
      simp only [runRound, hw, hb, Bool.false_eq_true, if_false]

/-! ### Lemmas: the round loop -/

/-- Structural facts about one `tallyLoop` run `r = (winner, logs, error)`:
status/tally relationships, the winner/error exits, and the round count. -/
def LoopStruct (cfg : Config) (threshold : Nat) (aC : List (String × Nat))
    (aP : List (String × JNum)) (fuel : Nat)
    (r : Option String × List RoundLog × Option String) : Prop :=
  (∀ log ∈ r.2.1,
    (log.status = "Winner found" ↔
      log.tally.any (fun p => threshold ≤ p.2) = true) ∧
    log.approvalRatings = aC ∧ log.approvalPercentages = aP ∧
    (log.status = "Winner found" ∨ log.status = "Unbreakable tie" ∨
      log.status = "Elimination") ∧
    (log.status ≠ "Winner found" →
      log.eliminated = eliminationSet cfg aP log.tally)) ∧
  (r.2.2 = none ↔ ∃ log ∈ r.2.1,
    log.status = "Winner found" ∨ log.status = "Unbreakable tie") ∧
  (r.1.isSome = true ↔ ∃ log ∈ r.2.1, log.status = "Winner found") ∧
  (∀ log ∈ r.2.1, log.status = "Winner found" →
    r.2.1.getLast? = some log ∧
    r.1 = (log.tally.find? (fun p => threshold ≤ p.2)).map Prod.fst) ∧
  (r.2.2 ≠ none →
    r.2.2 = some ("Tally exceeded max rounds (" ++ toString cfg.maxRounds
      ++ ").") ∧
    r.1 = none ∧ r.2.1.length = fuel ∧
    ∀ log ∈ r.2.1, log.status = "Elimination") ∧
  r.2.1.length ≤ fuel

theorem tallyLoop_struct (ballots : List Ballot) (cfg : Config)
    (threshold : Nat) (aC : List (String × Nat)) (aP : List (String × JNum)) :
    ∀ (fuel round : Nat) (active : List String)
      (choices : List (Option String)),
      LoopStruct cfg threshold aC aP fuel
        (tallyLoop ballots cfg threshold aC aP round fuel active choices) := by
  intro fuel
  induction fuel with
  | zero =>
    intro round active choices
    refine ⟨by simp [tallyLoop], by simp [tallyLoop], by simp [tallyLoop],
      by simp [tallyLoop], ?_, by simp [tallyLoop]⟩
    intro _
    exact ⟨by simp [tallyLoop], by simp [tallyLoop], by simp [tallyLoop],
      by simp [tallyLoop]⟩
  | succ fuel' ih =>
    intro round active choices
    rcases runRound_cases ballots cfg threshold aC aP round active choices with
      ⟨we, hw, hr⟩ | ⟨hw, hg, hr⟩ | ⟨hw, hg, hr⟩
    · -- winner round
      have hred : tallyLoop ballots cfg threshold aC aP round (fuel' + 1)
          active choices =
          (some we.1,
           [{ round := round, tally := roundTallyOf active choices,
              status := "Winner found", eliminated := [], transfers := [],
              approvalRatings := aC, approvalPercentages := aP }],
           none) := by
        simp [tallyLoop, hr]
      rw [hred]
      have hany : (roundTallyOf active choices).any
          (fun p => threshold ≤ p.2) = true := by
        rw [← find?_isSome_eq_any, hw]
        rfl
      refine ⟨?_, ?_, ?_, ?_, ?_, ?_⟩
      · intro log hlog
        have hl : log =
            { round := round, tally := roundTallyOf active choices,
              status := "Winner found", eliminated := [], transfers := [],
              approvalRatings := aC, approvalPercentages := aP } := by
          simpa using hlog
        subst hl
        exact ⟨by simpa using hany, rfl, rfl, Or.inl rfl,
          fun h => absurd rfl h⟩
      · simp
      · simp
      · intro log hlog hstat
        have hl : log =
            { round := round, tally := roundTallyOf active choices,
              status := "Winner found", eliminated := [], transfers := [],
              approvalRatings := aC, approvalPercentages := aP } := by
          simpa using hlog
        subst hl
        refine ⟨by simp, ?_⟩
        show some we.1 =
          ((roundTallyOf active choices).find?
            (fun p => threshold ≤ p.2)).map Prod.fst
        rw [hw]
        rfl
      · intro h
        exact absurd rfl h
      · simp
    · -- unbreakable-tie round
      have hred : tallyLoop ballots cfg threshold aC aP round (fuel' + 1)
          active choices =
          (none,
           [{ round := round, tally := roundTallyOf active choices,
              status := "Unbreakable tie",
              eliminated := eliminationSet cfg aP (roundTallyOf active choices),
              transfers := [], approvalRatings := aC,
              approvalPercentages := aP }],
           none) := by
        simp [tallyLoop, hr]
      rw [hred]
      have hany : (roundTallyOf active choices).any
          (fun p => threshold ≤ p.2) = false := by
        rw [← find?_isSome_eq_any, hw]
        rfl
      refine ⟨?_, ?_, ?_, ?_, ?_, ?_⟩
      · intro log hlog
        have hl : log =
            { round := round, tally := roundTallyOf active choices,
              status := "Unbreakable tie",
              eliminated := eliminationSet cfg aP (roundTallyOf active choices),
              transfers := [], approvalRatings := aC,
              approvalPercentages := aP } := by
          simpa using hlog
        subst hl
        refine ⟨?_, rfl, rfl, Or.inr (Or.inl rfl), fun _ => rfl⟩
        constructor
        · intro h
          exact absurd (show ("Unbreakable tie" : String) = "Winner found" from h)
            (by decide)
        · intro h
          have h' : (roundTallyOf active choices).any
              (fun p => threshold ≤ p.2) = true := h
          rw [hany] at h'
          exact absurd h' (by simp)
      · constructor
        · intro _
          exact ⟨_, List.mem_singleton_self _, Or.inr rfl⟩
        · intro _
          rfl
      · constructor
        · intro h
          exact absurd h (by simp)
        · intro ⟨log, hlog, hstat⟩
          have hl : log =
              { round := round,
                tally := roundTallyOf active choices,
                status := "Unbreakable tie",
                eliminated := eliminationSet cfg aP (roundTallyOf active choices),
                transfers := [], approvalRatings := aC,
                approvalPercentages := aP } := by
            simpa using hlog
          subst hl
          exact absurd
            (show ("Unbreakable tie" : String) = "Winner found" from hstat)
            (by decide)
      · intro log hlog hstat
        have hl : log =
            { round := round, tally := roundTallyOf active choices,
              status := "Unbreakable tie",
              eliminated := eliminationSet cfg aP (roundTallyOf active choices),
              transfers := [], approvalRatings := aC,
              approvalPercentages := aP } := by
          simpa using hlog
        subst hl
        exact absurd
          (show ("Unbreakable tie" : String) = "Winner found" from hstat)
          (by decide)
      · intro h
        exact absurd rfl h
      · simp
    · -- elimination round
      have hred : tallyLoop ballots cfg threshold aC aP round (fuel' + 1)
          active choices =
          ((tallyLoop ballots cfg threshold aC aP (round + 1) fuel'
              (active.filter (fun o =>
                !(eliminationSet cfg aP
                  (roundTallyOf active choices)).contains o))
              (runTransfers
                (eliminationSet cfg aP (roundTallyOf active choices))
                (active.filter (fun o =>
                  !(eliminationSet cfg aP
                    (roundTallyOf active choices)).contains o))
                ballots choices).2).1,
           { round := round, tally := roundTallyOf active choices,
             status := "Elimination",
             eliminated := eliminationSet cfg aP (roundTallyOf active choices),
             transfers := (runTransfers
               (eliminationSet cfg aP (roundTallyOf active choices))
               (active.filter (fun o =>
                 !(eliminationSet cfg aP
                   (roundTallyOf active choices)).contains o))
               ballots choices).1,
             approvalRatings := aC, approvalPercentages := aP } ::
             (tallyLoop ballots cfg threshold aC aP (round + 1) fuel'
               (active.filter (fun o =>
                 !(eliminationSet cfg aP
                   (roundTallyOf active choices)).contains o))
               (runTransfers
                 (eliminationSet cfg aP (roundTallyOf active choices))
                 (active.filter (fun o =>
                   !(eliminationSet cfg aP
                     (roundTallyOf active choices)).contains o))
                 ballots choices).2).2.1,
           (tallyLoop ballots cfg threshold aC aP (round + 1) fuel'
              (active.filter (fun o =>
                !(eliminationSet cfg aP
                  (roundTallyOf active choices)).contains o))
              (runTransfers
                (eliminationSet cfg aP (roundTallyOf active choices))
                (active.filter (fun o =>
                  !(eliminationSet cfg aP
                    (roundTallyOf active choices)).contains o))
                ballots choices).2).2.2) := by
        simp [tallyLoop, hr]
      have hany : (roundTallyOf active choices).any
          (fun p => threshold ≤ p.2) = false := by
        rw [← find?_isSome_eq_any, hw]
        rfl
      rw [hred]
      obtain ⟨ih1, ih2, ih3, ih4, ih5, ih6⟩ := ih (round + 1)
        (active.filter (fun o =>
          !(eliminationSet cfg aP (roundTallyOf active choices)).contains o))
        (runTransfers
          (eliminationSet cfg aP (roundTallyOf active choices))
          (active.filter (fun o =>
            !(eliminationSet cfg aP
              (roundTallyOf active choices)).contains o))
          ballots choices).2
      refine ⟨?_, ?_, ?_, ?_, ?_, ?_⟩
      · intro log hlog
        rcases List.mem_cons.mp hlog with hl | hl
        · subst hl
          refine ⟨?_, rfl, rfl, Or.inr (Or.inr rfl), fun _ => rfl⟩
          constructor
          · intro h
            exact absurd (show ("Elimination" : String) = "Winner found" from h)
              (by decide)
          · intro h
            have h' : (roundTallyOf active choices).any
                (fun p => threshold ≤ p.2) = true := h
            rw [hany] at h'
            exact absurd h' (by simp)
        · exact ih1 log hl
      · constructor
        · intro h
          obtain ⟨log, hlog, hstat⟩ := ih2.mp h
          exact ⟨log, List.mem_cons_of_mem _ hlog, hstat⟩
        · intro ⟨log, hlog, hstat⟩
          rcases List.mem_cons.mp hlog with hl | hl
          · subst hl
            rcases hstat with h | h
            · exact absurd (show ("Elimination" : String) = "Winner found" from h)
                (by decide)
            · exact absurd
                (show ("Elimination" : String) = "Unbreakable tie" from h)
                (by decide)
          · exact ih2.mpr ⟨log, hl, hstat⟩
      · constructor
        · intro h
          obtain ⟨log, hlog, hstat⟩ := ih3.mp h
          exact ⟨log, List.mem_cons_of_mem _ hlog, hstat⟩
        · intro ⟨log, hlog, hstat⟩
          rcases List.mem_cons.mp hlog with hl | hl
          · subst hl
            exact absurd
              (show ("Elimination" : String) = "Winner found" from hstat)
              (by decide)
          · exact ih3.mpr ⟨log, hl, hstat⟩
      · intro log hlog hstat
        rcases List.mem_cons.mp hlog with hl | hl
        · subst hl
          exact absurd
            (show ("Elimination" : String) = "Winner found" from hstat)
            (by decide)
        · obtain ⟨hlast, hwin⟩ := ih4 log hl hstat
          constructor
          · rw [List.getLast?_cons, hlast]
            rfl
          · exact hwin
      · intro h
        obtain ⟨hmsg, hwin, hlen, hall⟩ := ih5 h
        refine ⟨hmsg, hwin, ?_, ?_⟩
        · simp only [List.length_cons, hlen]
        · intro log hlog
          rcases List.mem_cons.mp hlog with hl | hl
          · subst hl
            rfl
          · exact hall log hl
      · simpa using Nat.succ_le_succ ih6

theorem tallyLoop_succ_of_winner {ballots : List Ballot} {cfg : Config}
    {threshold : Nat} {aC : List (String × Nat)} {aP : List (String × JNum)}
    {round : Nat} {active : List String} {choices : List (Option String)}
    {log : RoundLog} {w : String} (fuel : Nat)
    (hr : runRound ballots cfg threshold aC aP round active choices =
      (log, .winner w)) :
    tallyLoop ballots cfg threshold aC aP round (fuel + 1) active choices =
      (some w, [log], none) := by
  simp [tallyLoop, hr]

theorem tallyLoop_succ_of_tie {ballots : List Ballot} {cfg : Config}
    {threshold : Nat} {aC : List (String × Nat)} {aP : List (String × JNum)}
    {round : Nat} {active : List String} {choices : List (Option String)}
    {log : RoundLog} (fuel : Nat)
    (hr : runRound ballots cfg threshold aC aP round active choices =
      (log, .tie)) :
    tallyLoop ballots cfg threshold aC aP round (fuel + 1) active choices =
      (none, [log], none) := by
  simp [tallyLoop, hr]

theorem tallyLoop_succ_of_elim {ballots : List Ballot} {cfg : Config}
    {threshold : Nat} {aC : List (String × Nat)} {aP : List (String × JNum)}
    {round : Nat} {active : List String} {choices : List (Option String)}
    {log : RoundLog} {newA : List String} {newC : List (Option String)}
    (fuel : Nat)
    (hr : runRound ballots cfg threshold aC aP round active choices =
      (log, .elim newA newC)) :
    tallyLoop ballots cfg threshold aC aP round (fuel + 1) active choices =
      ((tallyLoop ballots cfg threshold aC aP (round + 1) fuel newA newC).1,
       log ::
         (tallyLoop ballots cfg threshold aC aP (round + 1) fuel newA newC).2.1,
       (tallyLoop ballots cfg threshold aC aP (round + 1) fuel newA newC).2.2)
    := by
  simp [tallyLoop, hr]

theorem tallyLoop_keys (ballots : List Ballot) (cfg : Config) (threshold : Nat)
    (aC : List (String × Nat)) (aP : List (String × JNum)) :
    ∀ (fuel round : Nat) (active : List String)
      (choices : List (Option String)),
      ∀ log ∈ (tallyLoop ballots cfg threshold aC aP round fuel active
        choices).2.1,
        (log.tally.map Prod.fst).Sublist active := by
  intro fuel
  induction fuel with
  | zero =>
    intro round active choices log hlog
    simp [tallyLoop] at hlog
  | succ fuel' ih =>
    intro round active choices log hlog
    rcases runRound_cases ballots cfg threshold aC aP round active choices with
      ⟨we, hw, hr⟩ | ⟨hw, hg, hr⟩ | ⟨hw, hg, hr⟩
    · rw [tallyLoop_succ_of_winner fuel' hr] at hlog
      have hl : log = (runRound ballots cfg threshold aC aP round active
          choices).1 := by
        rw [hr]
        simpa using hlog
      subst hl
      rw [hr]
      show ((roundTallyOf active choices).map Prod.fst).Sublist active
      rw [keys_roundTallyOf]
    · rw [tallyLoop_succ_of_tie fuel' hr] at hlog
      have hl : log = (runRound ballots cfg threshold aC aP round active
          choices).1 := by
        rw [hr]
        simpa using hlog
      subst hl
      rw [hr]
      show ((roundTallyOf active choices).map Prod.fst).Sublist active
      rw [keys_roundTallyOf]
    · rw [tallyLoop_succ_of_elim fuel' hr] at hlog
      rcases List.mem_cons.mp hlog with hl | hl
      · subst hl
        show ((roundTallyOf active choices).map Prod.fst).Sublist active
        rw [keys_roundTallyOf]
      · exact (ih (round + 1) _ _ log hl).trans (List.filter_sublist active)

theorem tallyLoop_head (ballots : List Ballot) (cfg : Config) (threshold : Nat)
    (aC : List (String × Nat)) (aP : List (String × JNum)) (round : Nat)
    (fuel' : Nat) (active : List String) (choices : List (Option String)) :
    (tallyLoop ballots cfg threshold aC aP round (fuel' + 1) active
      choices).2.1.head? =
      some (runRound ballots cfg threshold aC aP round active choices).1 := by
  rcases runRound_cases ballots cfg threshold aC aP round active choices with
    ⟨we, hw, hr⟩ | ⟨hw, hg, hr⟩ | ⟨hw, hg, hr⟩
  · rw [tallyLoop_succ_of_winner fuel' hr, hr]
    rfl
  · rw [tallyLoop_succ_of_tie fuel' hr, hr]
    rfl
  · rw [tallyLoop_succ_of_elim fuel' hr, hr]
    rfl

theorem length_roundTallyOf (active : List String)
    (choices : List (Option String)) :
    (roundTallyOf active choices).length = active.length := by
  have h := congrArg List.length (keys_roundTallyOf active choices)
  simpa using h

theorem eliminationSet_sublist_active (cfg : Config)
    (aP : List (String × JNum)) (active : List String)
    (choices : List (Option String)) :
    (eliminationSet cfg aP (roundTallyOf active choices)).Sublist active := by
  have h := (eliminationSet_sublist cfg aP (roundTallyOf active choices)).trans
    (toEliminateOf_sublist (roundTallyOf active choices))
  rwa [keys_roundTallyOf] at h

theorem roundTallyOf_ne_nil {active : List String}
    (choices : List (Option String)) (h : active ≠ []) :
    roundTallyOf active choices ≠ [] := by
  intro h0
  apply h
  have hk := keys_roundTallyOf active choices
  rw [h0] at hk
  exact hk.symm

theorem newChoices_in (cfg : Config) (aP : List (String × JNum))
    (ballots : List Ballot) (active : List String)
    (choices : List (Option String))
    (hin : ∀ s : String, some s ∈ choices → s ≠ "" → s ∈ active) :
    ∀ s : String,
      some s ∈ (runTransfers
        (eliminationSet cfg aP (roundTallyOf active choices))
        (active.filter (fun o =>
          !(eliminationSet cfg aP (roundTallyOf active choices)).contains o))
        ballots choices).2 →
      s ≠ "" →
      s ∈ active.filter (fun o =>
        !(eliminationSet cfg aP (roundTallyOf active choices)).contains o) := by
  intro s hs hse
  refine foldl_transferStep_in _ _ (ballots.zip choices) ?_ ([], [])
    (by simp) s hs hse
  intro q hq c hc hce hcf
  have hqc : q.2 ∈ choices := (List.of_mem_zip hq).2
  have hca : c ∈ active := hin c (hc ▸ hqc) hce
  simp only [List.elem_iff] at hcf
  exact List.mem_filter.mpr ⟨hca, by simpa using hcf⟩

theorem tallyLoop_transfers (ballots : List Ballot) (cfg : Config)
    (threshold : Nat) (aC : List (String × Nat)) (aP : List (String × JNum)) :
    ∀ (fuel round : Nat) (active : List String)
      (choices : List (Option String)),
      active.Nodup →
      (∀ s : String, some s ∈ choices → s ≠ "" → s ∈ active) →
      choices.length = ballots.length →
      ∀ log ∈ (tallyLoop ballots cfg threshold aC aP round fuel active
        choices).2.1,
        log.status = "Elimination" →
        ∀ f ∈ log.eliminated,
          alookup log.tally f = some (transferTotal log.transfers f) := by
  intro fuel
  induction fuel with
  | zero =>
    intro round active choices _ _ _ log hlog
    simp [tallyLoop] at hlog
  | succ fuel' ih =>
    intro round active choices hnd hin hlen log hlog hstat f hf
    rcases runRound_cases ballots cfg threshold aC aP round active choices with
      ⟨we, hw, hr⟩ | ⟨hw, hg, hr⟩ | ⟨hw, hg, hr⟩
    · rw [tallyLoop_succ_of_winner fuel' hr] at hlog
      have hl : log = (runRound ballots cfg threshold aC aP round active
          choices).1 := by
        rw [hr]
        simpa using hlog
      rw [hr] at hl
      subst hl
      exact absurd (show ("Winner found" : String) = "Elimination" from hstat)
        (by decide)
    · rw [tallyLoop_succ_of_tie fuel' hr] at hlog
      have hl : log = (runRound ballots cfg threshold aC aP round active
          choices).1 := by
        rw [hr]
        simpa using hlog
      rw [hr] at hl
      subst hl
      exact absurd (show ("Unbreakable tie" : String) = "Elimination" from hstat)
        (by decide)
    · rw [tallyLoop_succ_of_elim fuel' hr] at hlog
      rcases List.mem_cons.mp hlog with hl | hl
      · subst hl
        have hfe : f ∈ eliminationSet cfg aP (roundTallyOf active choices) := hf
        have hfa : f ∈ active :=
          (eliminationSet_sublist_active cfg aP active choices).subset hfe
        show alookup (roundTallyOf active choices) f = some (transferTotal
          (runTransfers (eliminationSet cfg aP (roundTallyOf active choices))
            (active.filter (fun o =>
              !(eliminationSet cfg aP
                (roundTallyOf active choices)).contains o))
            ballots choices).1 f)
        rw [alookup_roundTallyOf, if_pos hfa,
          runTransfers_total _ _ _ _ _ hfe,
          countP_zip_snd (fun c => c == some f && f != "") ballots choices
            hlen.symm]
      · exact ih (round + 1) _ _
          ((List.filter_sublist active).nodup hnd)
          (newChoices_in cfg aP ballots active choices hin)
          (by rw [runTransfers_length _ _ _ _ hlen.symm])
          log hl hstat f hf

theorem tallyLoop_term (ballots : List Ballot) (cfg : Config) (threshold : Nat)
    (aC : List (String × Nat)) (aP : List (String × JNum)) :
    ∀ (fuel round : Nat) (active : List String)
      (choices : List (Option String)),
      active ≠ [] → active.Nodup → active.length ≤ fuel →
      (tallyLoop ballots cfg threshold aC aP round fuel active choices).2.2 =
        none ∧
      (tallyLoop ballots cfg threshold aC aP round fuel active
        choices).2.1.length ≤ active.length ∧
      (∃ log, (tallyLoop ballots cfg threshold aC aP round fuel active
          choices).2.1.getLast? = some log ∧
        (log.status = "Winner found" ∨ log.status = "Unbreakable tie")) ∧
      (∀ log ∈ (tallyLoop ballots cfg threshold aC aP round fuel active
          choices).2.1,
        log.status = "Elimination" → log.eliminated ≠ []) ∧
      (∀ log, (tallyLoop ballots cfg threshold aC aP round fuel active
          choices).2.1.head? = some log →
        log.tally.length = active.length) ∧
      List.Chain' (fun a b => b.tally.length < a.tally.length)
        (tallyLoop ballots cfg threshold aC aP round fuel active choices).2.1
    := by
  intro fuel
  induction fuel with
  | zero =>
    intro round active choices hne _ hfuel
    have : 0 < active.length := List.length_pos.mpr hne
    omega
  | succ fuel' ih =>
    intro round active choices hne hnd hfuel
    have hpos : 0 < active.length := List.length_pos.mpr hne
    rcases runRound_cases ballots cfg threshold aC aP round active choices with
      ⟨we, hw, hr⟩ | ⟨hw, hg, hr⟩ | ⟨hw, hg, hr⟩
    · rw [tallyLoop_succ_of_winner fuel' hr]
      refine ⟨rfl, by simpa using hpos, ?_, ?_, ?_, ?_⟩
      · exact ⟨_, rfl, Or.inl rfl⟩
      · intro log hlog hstat
        have hl : log = (runRound ballots cfg threshold aC aP round active
            choices).1 := by
          rw [hr]
          simpa using hlog
        rw [hr] at hl
        subst hl
        exact absurd (show ("Winner found" : String) = "Elimination" from hstat)
          (by decide)
      · intro log hlog
        have hl : (runRound ballots cfg threshold aC aP round active
            choices).1 = log := by
          rw [hr]
          simpa using hlog
        rw [hr] at hl
        subst hl
        exact length_roundTallyOf active choices
      · simp
    · rw [tallyLoop_succ_of_tie fuel' hr]
      refine ⟨rfl, by simpa using hpos, ?_, ?_, ?_, ?_⟩
      · exact ⟨_, rfl, Or.inr rfl⟩
      · intro log hlog hstat
        have hl : log = (runRound ballots cfg threshold aC aP round active
            choices).1 := by
          rw [hr]
          simpa using hlog
        rw [hr] at hl
        subst hl
        exact absurd
          (show ("Unbreakable tie" : String) = "Elimination" from hstat)
          (by decide)
      · intro log hlog
        have hl : (runRound ballots cfg threshold aC aP round active
            choices).1 = log := by
          rw [hr]
          simpa using hlog
        rw [hr] at hl
        subst hl
        exact length_roundTallyOf active choices
      · simp
    · -- elimination round: the active set strictly shrinks and stays nonempty
      have htne : roundTallyOf active choices ≠ [] :=
        roundTallyOf_ne_nil choices hne
      have hEne : eliminationSet cfg aP (roundTallyOf active choices) ≠ [] :=
        eliminationSet_ne_nil cfg aP htne
      have hEsub : (eliminationSet cfg aP
          (roundTallyOf active choices)).Sublist active :=
        eliminationSet_sublist_active cfg aP active choices
      have hEnd : (eliminationSet cfg aP
          (roundTallyOf active choices)).Nodup :=
        List.Nodup.sublist hEsub hnd
      have hEpos : 0 < (eliminationSet cfg aP
          (roundTallyOf active choices)).length :=
        List.length_pos.mpr hEne
      have hEle : (eliminationSet cfg aP
          (roundTallyOf active choices)).length ≤ active.length :=
        hEsub.length_le
      have hNlen : (active.filter (fun o =>
          !(eliminationSet cfg aP
            (roundTallyOf active choices)).contains o)).length =
          active.length -
            (eliminationSet cfg aP (roundTallyOf active choices)).length :=
        length_filter_not_contains hnd hEnd (fun x hx => hEsub.subset hx)
      have hNlt : (active.filter (fun o =>
          !(eliminationSet cfg aP
            (roundTallyOf active choices)).contains o)).length <
          active.length := by
        omega
      have hNpos : 0 < (active.filter (fun o =>
          !(eliminationSet cfg aP
            (roundTallyOf active choices)).contains o)).length := by
        rcases Nat.lt_or_ge (eliminationSet cfg aP
          (roundTallyOf active choices)).length active.length with h | h
        · omega
        · exact absurd (Nat.le_antisymm hEle h) hg
      have hNne : active.filter (fun o =>
          !(eliminationSet cfg aP
            (roundTallyOf active choices)).contains o) ≠ [] :=
        List.length_pos.mp hNpos
      have hNnd : (active.filter (fun o =>
          !(eliminationSet cfg aP
            (roundTallyOf active choices)).contains o)).Nodup :=
        (List.filter_sublist active).nodup hnd
      have hNfuel : (active.filter (fun o =>
          !(eliminationSet cfg aP
            (roundTallyOf active choices)).contains o)).length ≤ fuel' := by
        omega
      obtain ⟨ihe, ihlen, ihlast, ihelim, ihhead, ihchain⟩ :=
        ih (round + 1) _ _ hNne hNnd hNfuel
      rw [tallyLoop_succ_of_elim fuel' hr]
      obtain ⟨llog, hllog, hlstat⟩ := ihlast
      have hrestne : (tallyLoop ballots cfg threshold aC aP (round + 1) fuel'
          (active.filter (fun o =>
            !(eliminationSet cfg aP
              (roundTallyOf active choices)).contains o))
          (runTransfers (eliminationSet cfg aP (roundTallyOf active choices))
            (active.filter (fun o =>
              !(eliminationSet cfg aP
                (roundTallyOf active choices)).contains o))
            ballots choices).2).2.1 ≠ [] := by
        intro h0
        rw [h0] at hllog
        exact absurd hllog (by simp)
      refine ⟨ihe, ?_, ?_, ?_, ?_, ?_⟩
      · simp only [List.length_cons]
        omega
      · refine ⟨llog, ?_, hlstat⟩
        rw [List.getLast?_cons, hllog]
        rfl
      · intro log hlog hstat
        rcases List.mem_cons.mp hlog with hl | hl
        · subst hl
          exact fun h0 => hEne h0
        · exact ihelim log hl hstat
      · intro log hlog
        have hl : (runRound ballots cfg threshold aC aP round active
            choices).1 = log := by
          rw [hr]
          simpa using hlog
        rw [hr] at hl
        subst hl
        exact length_roundTallyOf active choices
      · rw [List.chain'_cons']
        refine ⟨?_, ihchain⟩
        intro y hy
        have hyt : y.tally.length = (active.filter (fun o =>
            !(eliminationSet cfg aP
              (roundTallyOf active choices)).contains o)).length :=
          ihhead y (by simpa using hy)
        show y.tally.length < (roundTallyOf active choices).length
        rw [length_roundTallyOf, hyt]
        exact hNlt

/-! ### Lemmas: assembling `tally` -/

theorem countP_congr_mem {l : List α} {p q : α → Bool}
    (h : ∀ a ∈ l, p a = q a) : l.countP p = l.countP q := by
  induction l with
  | nil => rfl
  | cons a l ih =>
    rw [List.countP_cons, List.countP_cons,
      ih (fun a' ha' => h a' (List.mem_cons_of_mem _ ha')),
      h a (List.mem_cons_self _ _)]

theorem any_congr_mem {l : List α} {p q : α → Bool}
    (h : ∀ a ∈ l, p a = q a) : l.any p = l.any q := by
  induction l with
  | nil => rfl
  | cons a l ih =>
    rw [List.any_cons, List.any_cons,
      ih (fun a' ha' => h a' (List.mem_cons_of_mem _ ha')),
      h a (List.mem_cons_self _ _)]

theorem ne_nil_of_getLast?_eq_some {l : List α} {a : α}
    (h : l.getLast? = some a) : l ≠ [] := by
  intro h0
  rw [h0] at h
  exact absurd h (by simp)

theorem jsSet_ne_nil {l : List String} (h : l ≠ []) : jsSet l ≠ [] := by
  match l, h with
  | x :: xs, _ =>
    rw [jsSet, jsSetAux, if_neg (by simp)]
    simp

theorem contains_jsSet (l : List String) (x : String) :
    (jsSet l).contains x = l.contains x := by
  rw [Bool.eq_iff_iff]
  simp [List.elem_iff, mem_jsSet]

theorem runRound_fst_tally (ballots : List Ballot) (cfg : Config)
    (threshold : Nat) (aC : List (String × Nat)) (aP : List (String × JNum))
    (round : Nat) (active : List String) (choices : List (Option String)) :
    (runRound ballots cfg threshold aC aP round active choices).1.tally =
      roundTallyOf active choices := by
  rcases runRound_cases ballots cfg threshold aC aP round active choices with
    ⟨we, hw, hr⟩ | ⟨hw, hg, hr⟩ | ⟨hw, hg, hr⟩ <;> rw [hr]

/-- `tally` in terms of the loop: the source's `let` prelude, unfolded. -/
theorem tally_def (ballots : List Ballot) (options : List String)
    (cfg : Config) :
    tally ballots options cfg =
      { winner := (tallyLoop ballots cfg (ballots.length / 2 + 1)
          (calculateApproval ballots options).1
          (calculateApproval ballots options).2 1 cfg.maxRounds
          (jsSet options)
          (ballots.map (fun ballot =>
            getActiveChoice ballot.rankings (jsSet options)))).1,
        totalVotes := ballots.length,
        threshold := ballots.length / 2 + 1,
        options := options,
        rounds := (tallyLoop ballots cfg (ballots.length / 2 + 1)
          (calculateApproval ballots options).1
          (calculateApproval ballots options).2 1 cfg.maxRounds
          (jsSet options)
          (ballots.map (fun ballot =>
            getActiveChoice ballot.rankings (jsSet options)))).2.1,
        error := (tallyLoop ballots cfg (ballots.length / 2 + 1)
          (calculateApproval ballots options).1
          (calculateApproval ballots options).2 1 cfg.maxRounds
          (jsSet options)
          (ballots.map (fun ballot =>
            getActiveChoice ballot.rankings (jsSet options)))).2.2 } := rfl

theorem initial_choices_in (ballots : List Ballot) (options : List String) :
    ∀ s : String,
      some s ∈ ballots.map (fun ballot =>
        getActiveChoice ballot.rankings (jsSet options)) →
      s ∈ jsSet options := by
  intro s hs
  obtain ⟨b, _, hb⟩ := List.mem_map.mp hs
  exact getActiveChoice_mem hb

/-! ### Sample elections used by the witnesses -/

/-- The spec's five-ballot scenario: options `[A,B,C]`, rankings
`[[A,B,C],[B,A,C],[A,C,B],[C,B,A],[B,A,C]]`, no approvals. -/
def sampleBallots : List Ballot :=
  [⟨["A", "B", "C"], []⟩, ⟨["B", "A", "C"], []⟩, ⟨["A", "C", "B"], []⟩,
   ⟨["C", "B", "A"], []⟩, ⟨["B", "A", "C"], []⟩]

/-- The round-1 record of the sample election. -/
def sampleRound1 : RoundLog :=
  { round := 1, tally := [("A", 2), ("B", 2), ("C", 1)],
    status := "Elimination", eliminated := ["C"],
    transfers := [("C", [("B", 1)])],
    approvalRatings := [("A", 0), ("B", 0), ("C", 0)],
    approvalPercentages :=
      [("A", JNum.fin 0 ⟨5, by decide⟩), ("B", JNum.fin 0 ⟨5, by decide⟩),
       ("C", JNum.fin 0 ⟨5, by decide⟩)] }

/-- The round-2 record of the sample election. -/
def sampleRound2 : RoundLog :=
  { round := 2, tally := [("A", 2), ("B", 3)], status := "Winner found",
    eliminated := [], transfers := [],
    approvalRatings := [("A", 0), ("B", 0), ("C", 0)],
    approvalPercentages :=
      [("A", JNum.fin 0 ⟨5, by decide⟩), ("B", JNum.fin 0 ⟨5, by decide⟩),
       ("C", JNum.fin 0 ⟨5, by decide⟩)] }

/-! ### The claims -/

/-- C1: `tally` returns a winner in some round iff that round's tally has an
active option at or above `threshold = floor(totalVotes/2) + 1` with
`totalVotes = ballots.length`; the winning round is the last round recorded
(no further rounds are appended), its status is "Winner found", the winner
is the first tally entry at or above threshold in iteration order, and
tally iteration order is the original option-list order minus removals
(a sublist of `options`). -/
theorem claim_C1 (ballots : List Ballot) (options : List String)
    (cfg : Config) :
    (tally ballots options cfg).threshold = ballots.length / 2 + 1 ∧
    (∀ log ∈ (tally ballots options cfg).rounds,
      (log.status = "Winner found" ↔
        log.tally.any
          (fun p => (tally ballots options cfg).threshold ≤ p.2) = true)) ∧
    ((tally ballots options cfg).winner.isSome = true ↔
      ∃ log ∈ (tally ballots options cfg).rounds,
        log.status = "Winner found") ∧
    (∀ log ∈ (tally ballots options cfg).rounds,
      log.status = "Winner found" →
      (tally ballots options cfg).rounds.getLast? = some log ∧
      (tally ballots options cfg).winner =
        (log.tally.find? (fun p =>
          (tally ballots options cfg).threshold ≤ p.2)).map Prod.fst) ∧
    (∀ log ∈ (tally ballots options cfg).rounds,
      (log.tally.map Prod.fst).Sublist options) := by
  obtain ⟨h1, h2, h3, h4, h5, h6⟩ := tallyLoop_struct ballots cfg
    (ballots.length / 2 + 1) (calculateApproval ballots options).1
    (calculateApproval ballots options).2 cfg.maxRounds 1 (jsSet options)
    (ballots.map (fun ballot => getActiveChoice ballot.rankings
      (jsSet options)))
  refine ⟨rfl, ?_, h3, h4, ?_⟩
  · intro log hlog
    exact (h1 log hlog).1
  · intro log hlog
    exact (tallyLoop_keys ballots cfg (ballots.length / 2 + 1)
      (calculateApproval ballots options).1
      (calculateApproval ballots options).2 cfg.maxRounds 1 (jsSet options)
      _ log hlog).trans (jsSet_sublist options)

/-- C1 witness: in the sample election, round 2 is a winner round — it is
the last round recorded and the winner "B" is its first tally entry at or
above the threshold. -/
theorem claim_C1_witness :
    sampleRound2 ∈
      (tally sampleBallots ["A", "B", "C"] ⟨"eliminate_all", 20⟩).rounds ∧
    sampleRound2.status = "Winner found" ∧
    (tally sampleBallots ["A", "B", "C"]
      ⟨"eliminate_all", 20⟩).rounds.getLast? = some sampleRound2 ∧
    (tally sampleBallots ["A", "B", "C"] ⟨"eliminate_all", 20⟩).winner =
      (sampleRound2.tally.find? (fun p =>
        (tally sampleBallots ["A", "B", "C"]
          ⟨"eliminate_all", 20⟩).threshold ≤ p.2)).map Prod.fst := by
  refine ⟨by decide, by decide, ?_, ?_⟩
  · exact ((claim_C1 sampleBallots ["A", "B", "C"]
      ⟨"eliminate_all", 20⟩).2.2.2.1 sampleRound2 (by decide) (by decide)).1
  · exact ((claim_C1 sampleBallots ["A", "B", "C"]
      ⟨"eliminate_all", 20⟩).2.2.2.1 sampleRound2 (by decide) (by decide)).2

/-- C5: the result carries an error indicator iff no round ended with a
winner or an unbreakable tie; in that case the winner is null, the error is
a field of the normally-returned record naming the configured round limit,
exactly `maxRounds` elimination rounds were recorded, and the loop never
runs more than `maxRounds` rounds — no exception path exists (the
embedding is a total function). -/
theorem claim_C5 (ballots : List Ballot) (options : List String)
    (cfg : Config) :
    ((tally ballots options cfg).error = none ↔
      ∃ log ∈ (tally ballots options cfg).rounds,
        log.status = "Winner found" ∨ log.status = "Unbreakable tie") ∧
    (∀ e, (tally ballots options cfg).error = some e →
      (tally ballots options cfg).winner = none ∧
      e = "Tally exceeded max rounds (" ++ toString cfg.maxRounds ++ ")." ∧
      (tally ballots options cfg).rounds.length = cfg.maxRounds ∧
      ∀ log ∈ (tally ballots options cfg).rounds,
        log.status = "Elimination") ∧
    (tally ballots options cfg).rounds.length ≤ cfg.maxRounds := by
  obtain ⟨h1, h2, h3, h4, h5, h6⟩ := tallyLoop_struct ballots cfg
    (ballots.length / 2 + 1) (calculateApproval ballots options).1
    (calculateApproval ballots options).2 cfg.maxRounds 1 (jsSet options)
    (ballots.map (fun ballot => getActiveChoice ballot.rankings
      (jsSet options)))
  refine ⟨h2, ?_, h6⟩
  intro e he
  have he' : (tallyLoop ballots cfg (ballots.length / 2 + 1)
      (calculateApproval ballots options).1
      (calculateApproval ballots options).2 1 cfg.maxRounds (jsSet options)
      (ballots.map (fun ballot => getActiveChoice ballot.rankings
        (jsSet options)))).2.2 = some e := he
  have hne : (tallyLoop ballots cfg (ballots.length / 2 + 1)
      (calculateApproval ballots options).1
      (calculateApproval ballots options).2 1 cfg.maxRounds (jsSet options)
      (ballots.map (fun ballot => getActiveChoice ballot.rankings
        (jsSet options)))).2.2 ≠ none := by
    rw [he']
    simp
  obtain ⟨hmsg, hwin, hlen, hall⟩ := h5 hne
  rw [he'] at hmsg
  exact ⟨hwin, Option.some.inj hmsg, hlen, hall⟩

/-- C5 witness: with `maxRounds = 1` and two tied options over zero-vote
tallies the loop would stop at round 1, but with `maxRounds = 0` no round
runs, so the error field names the limit, the winner is null, and zero
rounds are recorded. -/
theorem claim_C5_witness :
    (tally [] ["A", "B"] ⟨"eliminate_all", 0⟩).error =
      some "Tally exceeded max rounds (0)." ∧
    (tally [] ["A", "B"] ⟨"eliminate_all", 0⟩).winner = none ∧
    "Tally exceeded max rounds (0)." =
      "Tally exceeded max rounds (" ++ toString (0 : Nat) ++ ")." ∧
    (tally [] ["A", "B"] ⟨"eliminate_all", 0⟩).rounds.length = 0 := by
  refine ⟨by decide, ?_, ?_, ?_⟩
  · exact ((claim_C5 [] ["A", "B"] ⟨"eliminate_all", 0⟩).2.1
      "Tally exceeded max rounds (0)." (by decide)).1
  · exact ((claim_C5 [] ["A", "B"] ⟨"eliminate_all", 0⟩).2.1
      "Tally exceeded max rounds (0)." (by decide)).2.1
  · exact ((claim_C5 [] ["A", "B"] ⟨"eliminate_all", 0⟩).2.1
      "Tally exceeded max rounds (0)." (by decide)).2.2.1

/-- C7: the fixed scenario — options `[A,B,C]`, the five listed ballots,
`tieBreaking "eliminate_all"` — yields round 1 tally `{A:2,B:2,C:1}` with
threshold 3, eliminates `C` with a single recorded transfer `C → B`, and
round 2 tally `{A:2,B:3}` with winner `B`. -/
theorem claim_C7 :
    (tally sampleBallots ["A", "B", "C"] ⟨"eliminate_all", 20⟩).winner =
      some "B" ∧
    (tally sampleBallots ["A", "B", "C"] ⟨"eliminate_all", 20⟩).threshold =
      3 ∧
    (tally sampleBallots ["A", "B", "C"] ⟨"eliminate_all", 20⟩).rounds =
      [sampleRound1, sampleRound2] := by
  decide

/-- C3 counterexample: with an empty options list the claim's hypothesis
`maxRounds ≥ number of options` admits `maxRounds = 0`, where the loop body
never runs; the result then carries the error field and no "Winner found"
or "Unbreakable tie" round exists, contradicting the claim. -/
theorem claim_C3_counterexample :
    (([] : List String).length ≤ (0 : Nat)) ∧
    (tally [] [] ⟨"eliminate_all", 0⟩).error ≠ none ∧
    (tally [] [] ⟨"eliminate_all", 0⟩).rounds = [] := by
  decide

/-- C3 (amended): for every ballots list, NONEMPTY options list, and config
with `maxRounds ≥` the number of options, `tally` terminates with a
"Winner found" or "Unbreakable tie" round within at most (number of
options) rounds, the returned record has no error field, in every
non-terminal round at least one active option is eliminated and the
active-option set (the tally key set) strictly decreases round over round;
the loop never runs more than `maxRounds` iterations. -/
theorem claim_C3 (ballots : List Ballot) (options : List String)
    (cfg : Config) (hne : options ≠ [])
    (hmax : options.length ≤ cfg.maxRounds) :
    (tally ballots options cfg).error = none ∧
    (tally ballots options cfg).rounds ≠ [] ∧
    (∃ log, (tally ballots options cfg).rounds.getLast? = some log ∧
      (log.status = "Winner found" ∨ log.status = "Unbreakable tie")) ∧
    (tally ballots options cfg).rounds.length ≤ options.length ∧
    (tally ballots options cfg).rounds.length ≤ cfg.maxRounds ∧
    (∀ log ∈ (tally ballots options cfg).rounds,
      log.status = "Elimination" → log.eliminated ≠ []) ∧
    List.Chain' (fun a b => b.tally.length < a.tally.length)
      (tally ballots options cfg).rounds := by
  have hjne : jsSet options ≠ [] := jsSet_ne_nil hne
  have hjnd : (jsSet options).Nodup := nodup_jsSet options
  have hjlen : (jsSet options).length ≤ options.length :=
    (jsSet_sublist options).length_le
  obtain ⟨hterm1, hterm2, hterm3, hterm4, hterm5, hterm6⟩ :=
    tallyLoop_term ballots cfg (ballots.length / 2 + 1)
      (calculateApproval ballots options).1
      (calculateApproval ballots options).2 cfg.maxRounds 1 (jsSet options)
      (ballots.map (fun ballot => getActiveChoice ballot.rankings
        (jsSet options)))
      hjne hjnd (le_trans hjlen hmax)
  obtain ⟨_, _, _, _, _, h6⟩ := tallyLoop_struct ballots cfg
    (ballots.length / 2 + 1) (calculateApproval ballots options).1
    (calculateApproval ballots options).2 cfg.maxRounds 1 (jsSet options)
    (ballots.map (fun ballot => getActiveChoice ballot.rankings
      (jsSet options)))
  obtain ⟨llog, hllog, hlstat⟩ := hterm3
  exact ⟨hterm1, ne_nil_of_getLast?_eq_some hllog, ⟨llog, hllog, hlstat⟩,
    le_trans hterm2 hjlen, h6, hterm4, hterm6⟩

/-- C3 witness: the sample election (3 options, `maxRounds = 20 ≥ 3`)
terminates in 2 ≤ 3 rounds with a winner round last, no error, every
elimination round eliminating someone, and strictly shrinking tallies. -/
theorem claim_C3_witness :
    (["A", "B", "C"] : List String) ≠ [] ∧
    (["A", "B", "C"] : List String).length ≤ 20 ∧
    (tally sampleBallots ["A", "B", "C"] ⟨"eliminate_all", 20⟩).error =
      none ∧
    (tally sampleBallots ["A", "B", "C"]
      ⟨"eliminate_all", 20⟩).rounds.length ≤ 3 := by
  refine ⟨by decide, by decide, ?_, ?_⟩
  · exact (claim_C3 sampleBallots ["A", "B", "C"] ⟨"eliminate_all", 20⟩
      (by decide) (by decide)).1
  · exact (claim_C3 sampleBallots ["A", "B", "C"] ⟨"eliminate_all", 20⟩
      (by decide) (by decide)).2.2.2.1

/-- C8 counterexample: with options `[""]` and one ballot ranking the
empty string, JS `if (choice)` treats the first choice as falsy and skips
it, so the round-1 tally counts sum to 0 although exactly one ballot holds
a ranking drawn from the option set. -/
theorem claim_C8_counterexample :
    ((tally [⟨[""], []⟩] [""] ⟨"eliminate_all", 5⟩).rounds.head?.map
      (fun log => (log.tally.map Prod.snd).sum)) = some 0 ∧
    [(⟨[""], []⟩ : Ballot)].countP (fun b =>
      b.rankings.any (fun x => ([""] : List String).contains x)) = 1 := by
  exact ⟨by decide, by decide⟩

/-- C8 (amended: no option is the empty string): `totalVotes` equals
`ballots.length` regardless of exhaustion, and the round-1 tally counts sum
to the number of ballots that are not exhausted at the start — those
holding at least one ranking drawn from the option set (for such ballots
the highest-ranked in-set option exists and receives the vote).  The
restriction is needed because JS `if (choice)` (src/index.js:230) skips an
empty-string first choice as falsy. -/
theorem claim_C8 (ballots : List Ballot) (options : List String)
    (cfg : Config) (hne : "" ∉ options) :
    (tally ballots options cfg).totalVotes = ballots.length ∧
    (∀ log, (tally ballots options cfg).rounds.head? = some log →
      (log.tally.map Prod.snd).sum =
        ballots.countP (fun b =>
          b.rankings.any (fun x => options.contains x))) := by
  refine ⟨rfl, ?_⟩
  intro log hlog
  match hfuel : cfg.maxRounds with
  | 0 =>
    have hnil : (tally ballots options cfg).rounds = [] := by
      show (tallyLoop ballots cfg (ballots.length / 2 + 1)
        (calculateApproval ballots options).1
        (calculateApproval ballots options).2 1 cfg.maxRounds (jsSet options)
        (ballots.map (fun ballot => getActiveChoice ballot.rankings
          (jsSet options)))).2.1 = []
      rw [hfuel]
      rfl
    rw [hnil] at hlog
    exact absurd hlog (by simp)
  | fuel' + 1 =>
    have hhead : (tally ballots options cfg).rounds.head? =
        some (runRound ballots cfg (ballots.length / 2 + 1)
          (calculateApproval ballots options).1
          (calculateApproval ballots options).2 1 (jsSet options)
          (ballots.map (fun ballot => getActiveChoice ballot.rankings
            (jsSet options)))).1 := by
      show (tallyLoop ballots cfg (ballots.length / 2 + 1)
        (calculateApproval ballots options).1
        (calculateApproval ballots options).2 1 cfg.maxRounds (jsSet options)
        (ballots.map (fun ballot => getActiveChoice ballot.rankings
          (jsSet options)))).2.1.head? = _
      rw [hfuel]
      exact tallyLoop_head ballots cfg (ballots.length / 2 + 1)
        (calculateApproval ballots options).1
        (calculateApproval ballots options).2 1 fuel' (jsSet options)
        (ballots.map (fun ballot => getActiveChoice ballot.rankings
          (jsSet options)))
    rw [hlog] at hhead
    have hlogeq : log = (runRound ballots cfg (ballots.length / 2 + 1)
        (calculateApproval ballots options).1
        (calculateApproval ballots options).2 1 (jsSet options)
        (ballots.map (fun ballot => getActiveChoice ballot.rankings
          (jsSet options)))).1 := Option.some.inj hhead
    rw [hlogeq, runRound_fst_tally,
      sum_roundTallyOf _ _ (nodup_jsSet options)
        (fun s hs _ => initial_choices_in ballots options s hs),
      List.countP_map]
    refine countP_congr_mem ?_
    intro b _
    show truthyChoice (getActiveChoice b.rankings (jsSet options)) =
      b.rankings.any (fun x => options.contains x)
    have hts : truthyChoice (getActiveChoice b.rankings (jsSet options)) =
        (getActiveChoice b.rankings (jsSet options)).isSome := by
      cases hg : getActiveChoice b.rankings (jsSet options) with
      | none => rfl
      | some c =>
        have hcm : c ∈ jsSet options := getActiveChoice_mem hg
        have hcne : c ≠ "" := fun he => hne (mem_jsSet.mp (he ▸ hcm))
        simp [truthyChoice, hcne]
    rw [hts, getActiveChoice_isSome]
    refine any_congr_mem ?_
    intro x _
    exact contains_jsSet options x

/-- C8 witness: the sample election's options exclude the empty string;
round 1's tally counts sum to 5, the number of ballots with an in-set
first choice, and `totalVotes` is 5. -/
theorem claim_C8_witness :
    ("" ∉ (["A", "B", "C"] : List String)) ∧
    (tally sampleBallots ["A", "B", "C"]
      ⟨"eliminate_all", 20⟩).totalVotes = 5 ∧
    (tally sampleBallots ["A", "B", "C"]
      ⟨"eliminate_all", 20⟩).rounds.head? = some sampleRound1 ∧
    (sampleRound1.tally.map Prod.snd).sum =
      sampleBallots.countP (fun b =>
        b.rankings.any (fun x => (["A", "B", "C"] : List String).contains x))
    := by
  refine ⟨by decide, by decide, by decide, ?_⟩
  exact (claim_C8 sampleBallots ["A", "B", "C"] ⟨"eliminate_all", 20⟩
    (by decide)).2 sampleRound1 (by decide)

/-- C10: in every "Elimination" round and for every option eliminated in
it, the transfer counts recorded for that option (summed over all
destinations, `"exhausted"` included) equal that round's tally count for
the option — every ballot counted for an eliminated option is transferred
exactly once. -/
theorem claim_C10 (ballots : List Ballot) (options : List String)
    (cfg : Config) :
    ∀ log ∈ (tally ballots options cfg).rounds,
      log.status = "Elimination" →
      ∀ f ∈ log.eliminated,
        alookup log.tally f = some (transferTotal log.transfers f) := by
  intro log hlog hstat f hf
  have hlog' : log ∈ (tallyLoop ballots cfg (ballots.length / 2 + 1)
      (calculateApproval ballots options).1
      (calculateApproval ballots options).2 1 cfg.maxRounds (jsSet options)
      (ballots.map (fun ballot => getActiveChoice ballot.rankings
        (jsSet options)))).2.1 := hlog
  exact tallyLoop_transfers ballots cfg (ballots.length / 2 + 1)
    (calculateApproval ballots options).1
    (calculateApproval ballots options).2 cfg.maxRounds 1 (jsSet options)
    (ballots.map (fun ballot => getActiveChoice ballot.rankings
      (jsSet options)))
    (nodup_jsSet options)
    (fun s hs _ => initial_choices_in ballots options s hs)
    (by rw [List.length_map]) log hlog' hstat f hf

/-- C10 witness: in the sample election's elimination round, `C` was
eliminated with tally count 1 and exactly one recorded transfer
(`C → B`, count 1). -/
theorem claim_C10_witness :
    sampleRound1 ∈
      (tally sampleBallots ["A", "B", "C"] ⟨"eliminate_all", 20⟩).rounds ∧
    sampleRound1.status = "Elimination" ∧
    "C" ∈ sampleRound1.eliminated ∧
    alookup sampleRound1.tally "C" =
      some (transferTotal sampleRound1.transfers "C") := by
  refine ⟨by decide, by decide, by decide, ?_⟩
  exact claim_C10 sampleBallots ["A", "B", "C"] ⟨"eliminate_all", 20⟩
    sampleRound1 (by decide) (by decide) "C" (by decide)

/-- The claim's narrowing set for a recorded round: the tied-for-minimum
candidates whose recorded approval percentage equals the minimum percentage
over the tied group. -/
def lowestApprovalGroup (log : RoundLog) : List String :=
  (toEliminateOf log.tally).filter (fun o =>
    (getPerc log.approvalPercentages o).eqb
      (minApprovalPercentage log.approvalPercentages
        (toEliminateOf log.tally)))

theorem narrowByApproval_eq_ite (percs : List (String × JNum))
    (toElim : List String) :
    narrowByApproval percs toElim =
      if 0 < (toElim.filter (fun o => (getPerc percs o).eqb
            (minApprovalPercentage percs toElim))).length ∧
          (toElim.filter (fun o => (getPerc percs o).eqb
            (minApprovalPercentage percs toElim))).length < toElim.length
      then toElim.filter (fun o => (getPerc percs o).eqb
        (minApprovalPercentage percs toElim))
      else toElim := by
  simp only [narrowByApproval]
  split
  · next hb => rw [if_pos (by simpa using hb)]
  · next hb => rw [if_neg (by simpa using hb)]

theorem eliminationSet_eq_narrow {cfg : Config} {percs : List (String × JNum)}
    {tally : List (String × Nat)}
    (htie : 1 < (toEliminateOf tally).length)
    (hcfg : cfg.tieBreaking = "approval") :
    eliminationSet cfg percs tally =
      narrowByApproval percs (toEliminateOf tally) := by
  simp only [eliminationSet]
  rw [if_pos (by simp [htie, hcfg])]

theorem eliminationSet_eq_plain {cfg : Config} {percs : List (String × JNum)}
    {tally : List (String × Nat)}
    (hcfg : cfg.tieBreaking ≠ "approval") :
    eliminationSet cfg percs tally = toEliminateOf tally := by
  simp only [eliminationSet]
  rw [if_neg (by simp [hcfg])]

/-- C2: in every round with more than one active option tied at the minimum
count, under `tieBreaking = "approval"` the eliminated set is the group of
tied candidates with the lowest recorded approval percentage — but only
when that group is non-empty and strictly smaller than the tied group,
otherwise the whole tied group is eliminated; every member of the
narrowing group indeed has a percentage no tied candidate beats downward.
Under any other `tieBreaking` value the whole minimum-count group is
eliminated. -/
theorem claim_C2 (ballots : List Ballot) (options : List String)
    (cfg : Config) :
    ∀ log ∈ (tally ballots options cfg).rounds,
      log.status ≠ "Winner found" →
      1 < (toEliminateOf log.tally).length →
      ((cfg.tieBreaking = "approval" →
        log.eliminated =
          (if 0 < (lowestApprovalGroup log).length ∧
              (lowestApprovalGroup log).length <
                (toEliminateOf log.tally).length
           then lowestApprovalGroup log
           else toEliminateOf log.tally) ∧
        ∀ o ∈ lowestApprovalGroup log, ∀ o' ∈ toEliminateOf log.tally,
          JNum.ltb (getPerc log.approvalPercentages o')
            (getPerc log.approvalPercentages o) = false) ∧
      (cfg.tieBreaking ≠ "approval" →
        log.eliminated = toEliminateOf log.tally)) := by
  obtain ⟨h1, _, _, _, _, _⟩ := tallyLoop_struct ballots cfg
    (ballots.length / 2 + 1) (calculateApproval ballots options).1
    (calculateApproval ballots options).2 cfg.maxRounds 1 (jsSet options)
    (ballots.map (fun ballot => getActiveChoice ballot.rankings
      (jsSet options)))
  intro log hlog hnw htie
  have hlog' : log ∈ (tallyLoop ballots cfg (ballots.length / 2 + 1)
      (calculateApproval ballots options).1
      (calculateApproval ballots options).2 1 cfg.maxRounds (jsSet options)
      (ballots.map (fun ballot => getActiveChoice ballot.rankings
        (jsSet options)))).2.1 := hlog
  have helim : log.eliminated =
      eliminationSet cfg (calculateApproval ballots options).2 log.tally :=
    (h1 log hlog').2.2.2.2 hnw
  have hperc : log.approvalPercentages =
      (calculateApproval ballots options).2 := (h1 log hlog').2.2.1
  constructor
  · intro hcfg
    constructor
    · rw [helim, eliminationSet_eq_narrow htie hcfg, narrowByApproval_eq_ite,
        lowestApprovalGroup, hperc]
    · intro o ho o' ho'
      have heq : (getPerc log.approvalPercentages o).eqb
          (minApprovalPercentage log.approvalPercentages
            (toEliminateOf log.tally)) = true :=
        (List.mem_filter.mp ho).2
      exact JNum.ltb_false_of_eqb heq
        (not_ltb_minApprovalPercentage log.approvalPercentages
          (toEliminateOf log.tally) o' ho')
  · intro hcfg
    rw [helim, eliminationSet_eq_plain hcfg]

/-- The witness election for the approval tie-break: three candidates with
`1`, `2`, `0` approvals respectively and a three-way first-choice tie. -/
def approvalBallots : List Ballot :=
  [⟨["A"], ["A", "B"]⟩, ⟨["B"], ["B"]⟩, ⟨["C"], []⟩]

/-- Round 1 of the approval-tie-break witness election: a three-way tie at
count 1, narrowed to the single lowest-approval candidate `C`. -/
def approvalRound1 : RoundLog :=
  { round := 1, tally := [("A", 1), ("B", 1), ("C", 1)],
    status := "Elimination", eliminated := ["C"],
    transfers := [("C", [("exhausted", 1)])],
    approvalRatings := [("A", 1), ("B", 2), ("C", 0)],
    approvalPercentages :=
      [("A", JNum.fin 100 ⟨3, by decide⟩), ("B", JNum.fin 200 ⟨3, by decide⟩),
       ("C", JNum.fin 0 ⟨3, by decide⟩)] }

/-- C2 witness: a 3-way tie among candidates with distinct approval
percentages under `tieBreaking "approval"` narrows elimination to the
single lowest-approval candidate. -/
theorem claim_C2_witness :
    approvalRound1 ∈
      (tally approvalBallots ["A", "B", "C"] ⟨"approval", 20⟩).rounds ∧
    approvalRound1.status ≠ "Winner found" ∧
    1 < (toEliminateOf approvalRound1.tally).length ∧
    approvalRound1.eliminated =
      (if 0 < (lowestApprovalGroup approvalRound1).length ∧
          (lowestApprovalGroup approvalRound1).length <
            (toEliminateOf approvalRound1.tally).length
       then lowestApprovalGroup approvalRound1
       else toEliminateOf approvalRound1.tally) ∧
    lowestApprovalGroup approvalRound1 = ["C"] := by
  refine ⟨by decide, by decide, by decide, ?_, by decide⟩
  exact ((claim_C2 approvalBallots ["A", "B", "C"] ⟨"approval", 20⟩
    approvalRound1 (by decide) (by decide) (by decide)).1 rfl).1

/-- C4: at the failing input — zero ballots — `calculateApproval` computes
`(0 / 0) * 100`, so every percentage is `NaN`, not the `0` the claim (and
the spec's stated intent) requires; the per-option counts behave as
claimed. -/
theorem claim_C4 :
    calculateApproval [] ["A"] = ([("A", 0)], [("A", JNum.nan)]) ∧
    (∀ d, JNum.nan ≠ JNum.fin 0 d) := by
  refine ⟨by decide, ?_⟩
  intro d h
  cases h

theorem stringsOf_map_vstr (l : List String) :
    stringsOf (l.map RawVal.vstr) = l := by
  induction l with
  | nil => rfl
  | cons s rest ih =>
    rw [List.map_cons, stringsOf, List.map_cons]
    rw [stringsOf] at ih
    rw [ih]

theorem findRankingError_map_vstr (rs options : List String) :
    findRankingError (rs.map RawVal.vstr) options =
      (rs.find? (fun s => !options.contains s)).map
        (fun x => "Invalid choice: \"" ++ x ++
          "\" is not one of the options.") := by
  induction rs with
  | nil => rfl
  | cons s rest ih =>
    rw [List.map_cons]
    by_cases h : options.contains s = true
    · rw [show findRankingError (RawVal.vstr s :: rest.map RawVal.vstr)
          options = if options.contains s then
            findRankingError (rest.map RawVal.vstr) options
          else some ("Invalid choice: \"" ++ s ++
            "\" is not one of the options.") from rfl,
        if_pos h, ih, List.find?_cons_of_neg _
          (by simpa [List.elem_iff] using h)]
    · rw [show findRankingError (RawVal.vstr s :: rest.map RawVal.vstr)
          options = if options.contains s then
            findRankingError (rest.map RawVal.vstr) options
          else some ("Invalid choice: \"" ++ s ++
            "\" is not one of the options.") from rfl,
        if_neg h, List.find?_cons_of_pos _
          (by simpa [List.elem_iff] using h)]
      rfl

theorem findApprovalError_map_vstr (as_ options : List String) :
    findApprovalError (as_.map RawVal.vstr) options =
      (as_.find? (fun s => !options.contains s)).map
        (fun x => "Invalid approved choice: \"" ++ x ++
          "\" is not one of the options.") := by
  induction as_ with
  | nil => rfl
  | cons s rest ih =>
    rw [List.map_cons]
    by_cases h : options.contains s = true
    · rw [show findApprovalError (RawVal.vstr s :: rest.map RawVal.vstr)
          options = if options.contains s then
            findApprovalError (rest.map RawVal.vstr) options
          else some ("Invalid approved choice: \"" ++ s ++
            "\" is not one of the options.") from rfl,
        if_pos h, ih, List.find?_cons_of_neg _
          (by simpa [List.elem_iff] using h)]
    · rw [show findApprovalError (RawVal.vstr s :: rest.map RawVal.vstr)
          options = if options.contains s then
            findApprovalError (rest.map RawVal.vstr) options
          else some ("Invalid approved choice: \"" ++ s ++
            "\" is not one of the options.") from rfl,
        if_neg h, List.find?_cons_of_pos _
          (by simpa [List.elem_iff] using h)]
      rfl

/-- C6 counterexample: for rankings `["A","A","Z"]` against options
`["A","B"]` the earliest violation in ranking order is the duplicate at
index 1, before the unknown option `"Z"` at index 2 — yet the reported
error is the unknown-option error, because the membership pass over all
rankings runs before the duplicate check. -/
theorem claim_C6_counterexample :
    validateVote
      (.vobj (.varr [.vstr "A", .vstr "A", .vstr "Z"]) .vundefined)
      ["A", "B"] =
      ⟨false, some "Invalid choice: \"Z\" is not one of the options."⟩ ∧
    (("Invalid choice: \"Z\" is not one of the options." : String) ≠
      "Duplicate found: rankings contain repeated options.") := by
  decide

/-- C6 (amended): `validateVote` is a deterministic pure function, but when
multiple violations are present the reported error follows the check
phases, not ranking order: the rankings are first scanned for non-string
and unknown-option entries (the first offender in ranking order determines
the error), and only if that whole scan passes are duplicates reported —
so an unknown-option violation later in the rankings takes precedence over
an earlier duplicate. -/
theorem claim_C6 (rs options : List String) (ap : RawVal) :
    (∀ x, rs.find? (fun s => !options.contains s) = some x →
      validateVote (.vobj (.varr (rs.map .vstr)) ap) options =
        ⟨false, some ("Invalid choice: \"" ++ x ++
          "\" is not one of the options.")⟩) ∧
    ((∀ s ∈ rs, s ∈ options) → hasDup rs = true →
      validateVote (.vobj (.varr (rs.map .vstr)) ap) options =
        ⟨false, some "Duplicate found: rankings contain repeated options."⟩)
    := by
  constructor
  · intro x hx
    have hfre : findRankingError (rs.map .vstr) options =
        some ("Invalid choice: \"" ++ x ++
          "\" is not one of the options.") := by
      rw [findRankingError_map_vstr, hx]
      rfl
    simp [validateVote, RawVal.truthy, RawVal.isObjectType,
      RawVal.rankingsField, hfre]
  · intro hmem hdup
    have hfind : rs.find? (fun s => !options.contains s) = none := by
      rw [List.find?_eq_none]
      intro x hx
      simp [List.elem_iff, hmem x hx]
    have hfre : findRankingError (rs.map .vstr) options = none := by
      rw [findRankingError_map_vstr, hfind]
      rfl
    have hdup' : hasDup (stringsOf (rs.map .vstr)) = true := by
      rw [stringsOf_map_vstr]
      exact hdup
    simp [validateVote, RawVal.truthy, RawVal.isObjectType,
      RawVal.rankingsField, hfre, hdup']

/-- C6 witness: on rankings `["A","A","Z"]` against options `["A","B"]`,
the first unknown entry in ranking order is `"Z"` and the amended claim
yields exactly the unknown-option error for it. -/
theorem claim_C6_witness :
    (["A", "A", "Z"].find?
      (fun s => !(["A", "B"] : List String).contains s) = some "Z") ∧
    validateVote
      (.vobj (.varr (["A", "A", "Z"].map .vstr)) .vundefined) ["A", "B"] =
      ⟨false, some "Invalid choice: \"Z\" is not one of the options."⟩ :=
  ⟨by decide,
    (claim_C6 ["A", "A", "Z"] ["A", "B"] .vundefined).1 "Z" (by decide)⟩

/-! ### Lemmas: the formatter -/

/-- Re-inject a clean ballot as the raw record `formatBallots` would read
(its own output shape: a record with `rankings` and `approvals` arrays). -/
def ballotToRaw (b : Ballot) : RawVal :=
  .vobj (.varr (b.rankings.map .vstr)) (.varr (b.approvals.map .vstr))

/-- A clean ballot: rankings and approvals are duplicate-free and drawn
from the option list. -/
def CleanBallot (options : List String) (b : Ballot) : Prop :=
  (∀ x ∈ b.rankings, x ∈ options) ∧ b.rankings.Nodup ∧
  (∀ x ∈ b.approvals, x ∈ options) ∧ b.approvals.Nodup

theorem formatLoop_eq_filterMap (options : List String) :
    ∀ (votes : List RawVal) (acc : List Ballot),
      formatLoop options votes acc =
        acc ++ votes.filterMap (processVote options) := by
  intro votes
  induction votes with
  | nil => intro acc; simp [formatLoop]
  | cons vote rest ih =>
    intro acc
    rw [formatLoop, List.filterMap_cons]
    cases hp : processVote options vote with
    | none => simp [ih acc]
    | some b => simp [ih (acc ++ [b])]

theorem hasDup_eq_false_of_nodup {l : List String} (h : l.Nodup) :
    hasDup l = false := hasDup_eq_false_iff.mpr h

theorem nodup_of_hasDup_eq_false {l : List String} (h : hasDup l = false) :
    l.Nodup := hasDup_eq_false_iff.mp h

theorem findRankingError_none_inv :
    ∀ {rs : List RawVal} {options : List String},
      findRankingError rs options = none →
      ∃ ss : List String, rs = ss.map RawVal.vstr ∧ ∀ s ∈ ss, s ∈ options := by
  intro rs
  induction rs with
  | nil => intro options _; exact ⟨[], rfl, by simp⟩
  | cons e rest ih =>
    intro options h
    cases e with
    | vstr s =>
      rw [show findRankingError (RawVal.vstr s :: rest) options =
          if options.contains s then findRankingError rest options
          else some ("Invalid choice: \"" ++ s ++
            "\" is not one of the options.") from rfl] at h
      by_cases hc : options.contains s = true
      · rw [if_pos hc] at h
        obtain ⟨ss, hss, hmem⟩ := ih h
        refine ⟨s :: ss, by rw [List.map_cons, hss], ?_⟩
        intro x hx
        rcases List.mem_cons.mp hx with h' | h'
        · exact h' ▸ (by simpa [List.elem_iff] using hc)
        · exact hmem x h'
      · rw [if_neg hc] at h
        exact absurd h (by simp)
    | vnull =>
      exact Option.noConfusion (show some "Invalid choice: rankings contain a non-string value." = (none : Option String) from h)
    | vundefined =>
      exact Option.noConfusion (show some "Invalid choice: rankings contain a non-string value." = (none : Option String) from h)
    | vbool b =>
      exact Option.noConfusion (show some "Invalid choice: rankings contain a non-string value." = (none : Option String) from h)
    | vnum n =>
      exact Option.noConfusion (show some "Invalid choice: rankings contain a non-string value." = (none : Option String) from h)
    | varr xs =>
      exact Option.noConfusion (show some "Invalid choice: rankings contain a non-string value." = (none : Option String) from h)
    | vobj r a =>
      exact Option.noConfusion (show some "Invalid choice: rankings contain a non-string value." = (none : Option String) from h)

theorem findApprovalError_none_inv :
    ∀ {as_ : List RawVal} {options : List String},
      findApprovalError as_ options = none →
      ∃ ss : List String, as_ = ss.map RawVal.vstr ∧ ∀ s ∈ ss, s ∈ options
    := by
  intro as_
  induction as_ with
  | nil => intro options _; exact ⟨[], rfl, by simp⟩
  | cons e rest ih =>
    intro options h
    cases e with
    | vstr s =>
      rw [show findApprovalError (RawVal.vstr s :: rest) options =
          if options.contains s then findApprovalError rest options
          else some ("Invalid approved choice: \"" ++ s ++
            "\" is not one of the options.") from rfl] at h
      by_cases hc : options.contains s = true
      · rw [if_pos hc] at h
        obtain ⟨ss, hss, hmem⟩ := ih h
        refine ⟨s :: ss, by rw [List.map_cons, hss], ?_⟩
        intro x hx
        rcases List.mem_cons.mp hx with h' | h'
        · exact h' ▸ (by simpa [List.elem_iff] using hc)
        · exact hmem x h'
      · rw [if_neg hc] at h
        exact absurd h (by simp)
    | vnull =>
      exact Option.noConfusion (show some "Invalid choice: approvals contain a non-string value." = (none : Option String) from h)
    | vundefined =>
      exact Option.noConfusion (show some "Invalid choice: approvals contain a non-string value." = (none : Option String) from h)
    | vbool b =>
      exact Option.noConfusion (show some "Invalid choice: approvals contain a non-string value." = (none : Option String) from h)
    | vnum n =>
      exact Option.noConfusion (show some "Invalid choice: approvals contain a non-string value." = (none : Option String) from h)
    | varr xs =>
      exact Option.noConfusion (show some "Invalid choice: approvals contain a non-string value." = (none : Option String) from h)
    | vobj r a =>
      exact Option.noConfusion (show some "Invalid choice: approvals contain a non-string value." = (none : Option String) from h)

theorem validateVote_valid_inv {vote : RawVal} {options : List String}
    (h : (validateVote vote options).valid = true) :
    ∃ rs, vote.rankingsField = .varr rs ∧
      findRankingError rs options = none ∧
      hasDup (stringsOf rs) = false ∧
      (vote.approvalsField.truthy = false ∨
        ∃ as_, vote.approvalsField = .varr as_ ∧
          findApprovalError as_ options = none ∧
          hasDup (stringsOf as_) = false) := by
  rw [validateVote] at h
  split at h
  · exact absurd h (by simp)
  · split at h
    · next rs heq =>
      refine ⟨rs, heq, ?_⟩
      split at h
      · exact absurd h (by simp)
      · next hfre =>
        refine ⟨hfre, ?_⟩
        split at h
        · exact absurd h (by simp)
        · next hdup =>
          refine ⟨by simpa using hdup, ?_⟩
          simp only [] at h
          split at h
          · next htr =>
            split at h
            · next as_ haeq =>
              split at h
              · exact absurd h (by simp)
              · next hfae =>
                split at h
                · exact absurd h (by simp)
                · next hadup =>
                  exact Or.inr ⟨as_, haeq, hfae, by simpa using hadup⟩
            · exact absurd h (by simp)
          · next htr =>
            exact Or.inl (by simpa using htr)
    · exact absurd h (by simp)

theorem processVote_some_inv {options : List String} {vote : RawVal}
    {b : Ballot} (h : processVote options vote = some b) :
    (validateVote vote options).valid = true ∧
    b = ⟨stringsOf vote.rankingsField.elems, approvalsOrEmpty vote⟩ := by
  rw [processVote] at h
  split at h
  · exact Option.noConfusion h
  · split at h
    · next hv => exact ⟨hv, (Option.some.inj h).symm⟩
    · exact Option.noConfusion h

theorem processVote_clean {options : List String} {vote : RawVal} {b : Ballot}
    (h : processVote options vote = some b) : CleanBallot options b := by
  obtain ⟨hv, hb⟩ := processVote_some_inv h
  obtain ⟨rs, hrf, hfre, hdupf, happ⟩ := validateVote_valid_inv hv
  obtain ⟨ss, hss, hmem⟩ := findRankingError_none_inv hfre
  have hrk : b.rankings = ss := by
    rw [hb, hrf]
    show stringsOf rs = ss
    rw [hss, stringsOf_map_vstr]
  have hndr : ss.Nodup := by
    refine nodup_of_hasDup_eq_false ?_
    rw [hss, stringsOf_map_vstr] at hdupf
    exact hdupf
  rcases happ with hfalsy | ⟨as_, haf, hfae, hadupf⟩
  · have hanil : b.approvals = [] := by
      rw [hb]
      show approvalsOrEmpty vote = []
      cases hav : vote.approvalsField with
      | varr xs => rw [hav] at hfalsy; exact absurd hfalsy (by simp [RawVal.truthy])
      | vnull => simp [approvalsOrEmpty, hav]
      | vundefined => simp [approvalsOrEmpty, hav]
      | vbool bb => simp [approvalsOrEmpty, hav]
      | vnum n => simp [approvalsOrEmpty, hav]
      | vstr s => simp [approvalsOrEmpty, hav]
      | vobj r a => simp [approvalsOrEmpty, hav]
    unfold CleanBallot
    rw [hrk, hanil]
    exact ⟨hmem, hndr, by simp, List.nodup_nil⟩
  · obtain ⟨ts, hts, htmem⟩ := findApprovalError_none_inv hfae
    have hap : b.approvals = ts := by
      rw [hb]
      show approvalsOrEmpty vote = ts
      simp only [approvalsOrEmpty, haf]
      rw [hts, stringsOf_map_vstr]
    have hnda : ts.Nodup := by
      refine nodup_of_hasDup_eq_false ?_
      rw [hts, stringsOf_map_vstr] at hadupf
      exact hadupf
    unfold CleanBallot
    rw [hrk, hap]
    exact ⟨hmem, hndr, htmem, hnda⟩

theorem validateVote_ballotToRaw {options : List String} {b : Ballot}
    (h : CleanBallot options b) :
    validateVote (ballotToRaw b) options = ⟨true, none⟩ := by
  obtain ⟨hrmem, hrnd, hamem, hand⟩ := h
  have hfre : findRankingError (b.rankings.map .vstr) options = none := by
    rw [findRankingError_map_vstr, List.find?_eq_none.mpr]
    · rfl
    · intro x hx
      simp [List.elem_iff, hrmem x hx]
  have hfae : findApprovalError (b.approvals.map .vstr) options = none := by
    rw [findApprovalError_map_vstr, List.find?_eq_none.mpr]
    · rfl
    · intro x hx
      simp [List.elem_iff, hamem x hx]
  have hdupr : hasDup (stringsOf (b.rankings.map .vstr)) = false := by
    rw [stringsOf_map_vstr]
    exact hasDup_eq_false_of_nodup hrnd
  have hdupa : hasDup (stringsOf (b.approvals.map .vstr)) = false := by
    rw [stringsOf_map_vstr]
    exact hasDup_eq_false_of_nodup hand
  simp [validateVote, ballotToRaw, RawVal.truthy, RawVal.isObjectType,
    RawVal.rankingsField, RawVal.approvalsField, hfre, hfae, hdupr, hdupa]

theorem processVote_ballotToRaw {options : List String} {b : Ballot}
    (h : CleanBallot options b) :
    processVote options (ballotToRaw b) = some b := by
  have hv := validateVote_ballotToRaw h
  rw [ballotToRaw] at hv ⊢
  simp [processVote, RawVal.truthy, RawVal.isObjectType,
    RawVal.rankingsField, RawVal.approvalsField, RawVal.elems,
    approvalsOrEmpty, stringsOf_map_vstr, hv]

theorem formatBallots_clean {raw : RawVal} {options : List String} :
    ∀ b ∈ formatBallots raw options, CleanBallot options b := by
  intro b hb
  cases raw with
  | varr votes =>
    rw [formatBallots, formatLoop_eq_filterMap, List.nil_append] at hb
    obtain ⟨vote, _, hvp⟩ := List.mem_filterMap.mp hb
    exact processVote_clean hvp
  | vnull => exact absurd hb (by simp [formatBallots])
  | vundefined => exact absurd hb (by simp [formatBallots])
  | vbool bb => exact absurd hb (by simp [formatBallots])
  | vnum n => exact absurd hb (by simp [formatBallots])
  | vstr s => exact absurd hb (by simp [formatBallots])
  | vobj r a => exact absurd hb (by simp [formatBallots])

theorem filterMap_id_of_mem {l : List α} {f : α → Option α}
    (h : ∀ a ∈ l, f a = some a) : l.filterMap f = l := by
  induction l with
  | nil => rfl
  | cons a l ih =>
    rw [List.filterMap_cons, h a (List.mem_cons_self _ _),
      ih (fun a' ha' => h a' (List.mem_cons_of_mem _ ha'))]

/-- C9: `formatBallots` is idempotent — re-formatting its own output (as
the raw records it produces) returns it unchanged; it never throws (the
embedding is a total function): any non-array input yields `[]` and, on an
array, each malformed or invalid record is simply dropped while the clean
ballots keep input order (the output is the input's `filterMap`). -/
theorem claim_C9 (raw : RawVal) (options : List String) :
    formatBallots
      (.varr ((formatBallots raw options).map ballotToRaw)) options =
      formatBallots raw options ∧
    (∀ votes, raw = .varr votes →
      formatBallots raw options = votes.filterMap (processVote options)) ∧
    ((∀ votes, raw ≠ .varr votes) → formatBallots raw options = []) := by
  refine ⟨?_, ?_, ?_⟩
  · rw [formatBallots, formatLoop_eq_filterMap, List.nil_append,
      List.filterMap_map]
    refine filterMap_id_of_mem ?_
    intro b hb
    exact processVote_ballotToRaw (formatBallots_clean b hb)
  · intro votes h
    subst h
    rw [formatBallots, formatLoop_eq_filterMap, List.nil_append]
  · intro h
    cases raw with
    | varr votes => exact absurd rfl (h votes)
    | vnull => rfl
    | vundefined => rfl
    | vbool bb => rfl
    | vnum n => rfl
    | vstr s => rfl
    | vobj r a => rfl

/-- A raw-vote batch exercising the dropped-record paths: `null`, a bare
string, a valid record, a record with `null` rankings, a duplicate
ranking, and an unknown option. -/
def rawVotesSample : List RawVal :=
  [.vnull, .vstr "x", .vobj (.varr [.vstr "A"]) .vundefined,
   .vobj .vnull .vundefined, .vobj (.varr [.vstr "A", .vstr "A"]) .vundefined,
   .vobj (.varr [.vstr "Q"]) .vundefined]

/-- C9 witness: on the sample raw batch only the single valid record
survives, in input order, and re-formatting the output leaves it
unchanged. -/
theorem claim_C9_witness :
    formatBallots (.varr rawVotesSample) ["A", "B"] =
      rawVotesSample.filterMap (processVote ["A", "B"]) ∧
    formatBallots
      (.varr ((formatBallots (.varr rawVotesSample) ["A", "B"]).map
        ballotToRaw)) ["A", "B"] =
      formatBallots (.varr rawVotesSample) ["A", "B"] ∧
    formatBallots (.varr rawVotesSample) ["A", "B"] = [⟨["A"], []⟩] :=
  ⟨(claim_C9 (.varr rawVotesSample) ["A", "B"]).2.1 rawVotesSample rfl,
   (claim_C9 (.varr rawVotesSample) ["A", "B"]).1,
   by decide⟩

end RCV
